import Mathlib

/-!
Verification of the binary audio-container rewriting subsystem of the
spotify-downloader repository: the FLAC metadata-block editor
(`applyFlacTags` and its helpers, from src/app/page.tsx) and the
MPEG-DASH manifest resolver (`decodeManifest`, `parseMpdSegmentUrls`,
`buildSegmentUrls`, from the manifest module).

Modelling conventions for the shallow embedding:
* Byte buffers (`Uint8Array`) are `List ℕ`; every read reduces the element
  mod 256, reflecting the `Uint8Array` storage invariant (stored elements
  are always in 0..255, and all writes produced by this code are reduced).
* JavaScript numbers are modelled as exact scaled decimals (`JsNum`), with
  `none` standing for a non-finite result (`NaN` or `±Infinity`); every use
  of such values in the source is guarded by `Number.isFinite`, which maps
  to `Option.isSome` here.
* Loops whose induction variable is not structural take an explicit fuel
  argument; the wrappers pass fuel that strictly dominates the number of
  iterations (each iteration consumes input), so exhaustion is unreachable.
-/

namespace SpotDl

/-- Big-endian serialization of a 32-bit value, as done by
`writeUint32BE` (`DataView.setUint32(…, value >>> 0, false)`): the value is
reduced mod 2^32 and emitted as four bytes, most significant first. -/
def u32be (v : ℕ) : List ℕ :=
  [v / 16777216 % 256, v / 65536 % 256, v / 256 % 256, v % 256]

/-- Little-endian serialization of a 32-bit value (`writeUint32LE`). -/
def u32le (v : ℕ) : List ℕ :=
  [v % 256, v / 256 % 256, v / 65536 % 256, v / 16777216 % 256]

/-- UTF-8 encoding of a single Unicode scalar value, by code-point range.
Models what `TextEncoder.encode` does to each character. -/
def utf8EncodeChar (n : ℕ) : List ℕ :=
  if n < 128 then [n]
  else if n < 2048 then [192 + n / 64, 128 + n % 64]
  else if n < 65536 then [224 + n / 4096, 128 + n / 64 % 64, 128 + n % 64]
  else [240 + n / 262144, 128 + n / 4096 % 64, 128 + n / 64 % 64, 128 + n % 64]

/-- The `encodeString` helper: UTF-8 bytes of a string (`TextEncoder.encode`). -/
def encodeString (s : String) : List ℕ :=
  (s.data.map (fun c => utf8EncodeChar c.toNat)).flatten

/-- The `FlacTagMetadata` record: five optional string fields. -/
structure FlacTagMetadata where
  title : Option String
  artist : Option String
  album : Option String
  date : Option String
  trackNumber : Option String
deriving DecidableEq

/-- The `FlacPicture` record: raw image bytes plus MIME type. -/
structure FlacPicture where
  buffer : List ℕ
  mimeType : String
deriving DecidableEq

/-- A parsed FLAC metadata block: 7-bit block type plus payload bytes. -/
structure FlacBlock where
  type : ℕ
  data : List ℕ
deriving DecidableEq

/-- The fixed vendor string constant `VENDOR_STRING`. -/
def VENDOR_STRING : String := "spotify-downloader"

/-- The 4-byte FLAC magic `FLAC_HEADER_BYTES` (0x66 0x4c 0x61 0x43, "fLaC"). -/
def flacMagic : List ℕ := [0x66, 0x4c, 0x61, 0x43]

/-- JavaScript truthiness of an optional string field (`Boolean(field)`):
true exactly when the field is present and non-empty. -/
def fieldTruthy : Option String → Bool
  | some s => !s.isEmpty
  | none => false

/-- One `if (metadata.field) comments.push(`KEY=${metadata.field}`)` step:
the comment entry contributed by a single metadata field. -/
def fieldComment (key : String) (v : Option String) : List String :=
  match v with
  | some t => if t.isEmpty then [] else [key ++ "=" ++ t]
  | none => []

/-- The `comments` array built by `buildVorbisCommentBlock`: one `KEY=value`
string per truthy field, pushed in the fixed source order TITLE, ARTIST,
ALBUM, DATE, TRACKNUMBER. -/
def metadataComments (m : FlacTagMetadata) : List String :=
  fieldComment "TITLE" m.title
    ++ fieldComment "ARTIST" m.artist
    ++ fieldComment "ALBUM" m.album
    ++ fieldComment "DATE" m.date
    ++ fieldComment "TRACKNUMBER" m.trackNumber

/-- The `buildVorbisCommentBlock` function: vendor-length (LE) + vendor bytes
+ comment count (LE) + per-comment length (LE) + bytes.  The JS code writes
these fields sequentially into a pre-sized buffer; the functional
translation is the concatenation of the same writes in the same order. -/
def buildVorbisCommentBlock (metadata : FlacTagMetadata) : List ℕ :=
  let vendorBytes := encodeString VENDOR_STRING
  let commentBytes := (metadataComments metadata).map encodeString
  u32le vendorBytes.length
    ++ vendorBytes
    ++ u32le commentBytes.length
    ++ (commentBytes.map (fun bytes => u32le bytes.length ++ bytes)).flatten

/-- The `buildPictureBlock` function: FLAC PICTURE payload with picture
type 3, MIME, fixed description "Cover (front)", four zero dimension
fields, data length and data, all lengths big-endian. -/
def buildPictureBlock (picture : FlacPicture) : List ℕ :=
  let mimeBytes := encodeString picture.mimeType
  let descriptionBytes := encodeString "Cover (front)"
  u32be 3
    ++ u32be mimeBytes.length
    ++ mimeBytes
    ++ u32be descriptionBytes.length
    ++ descriptionBytes
    ++ u32be 0
    ++ u32be 0
    ++ u32be 0
    ++ u32be 0
    ++ u32be picture.buffer.length
    ++ picture.buffer

/-- Reading a 4-byte big-endian word from buffer bytes
(`DataView.getUint32(0, false)`); each byte is reduced mod 256 as stored. -/
def readU32BE (b0 b1 b2 b3 : ℕ) : ℕ :=
  b0 % 256 * 16777216 + b1 % 256 * 65536 + b2 % 256 * 256 + b3 % 256

/-- Result of `parseBlocks`: the block list plus the offset of the first
audio byte (the offset right after the last parsed metadata block). -/
structure ParsedBlocks where
  blocks : List FlacBlock
  audioOffset : ℕ
deriving DecidableEq

/-- The `while (offset + 4 <= source.length)` loop of `parseBlocks`.
`rest` is the input from the current offset on, `offset` the absolute
offset (for `audioOffset`), `acc` the blocks pushed so far.  For a header
word `h` (< 2^32): bit 31 (`h & 0x80000000`) is the is-last flag, i.e.
`h / 2^31 = 1`; `(h >> 24) & 0x7f` is `h / 2^24 % 128`; `h & 0x00ffffff`
is `h % 2^24`.  A claimed payload length exceeding the remaining bytes
aborts the whole parse (`return null`).  Fuel dominates the iteration
count since every iteration consumes at least 4 bytes. -/
def parseBlocksLoop : ℕ → List ℕ → ℕ → List FlacBlock → Option ParsedBlocks
  | 0, _, _, _ => none
  | f + 1, b0 :: b1 :: b2 :: b3 :: tail, offset, acc =>
    let header := readU32BE b0 b1 b2 b3
    let isLast := header / 2147483648 == 1
    let blockType := header / 16777216 % 128
    let blockLength := header % 16777216
    if tail.length < blockLength then none
    else
      let block : FlacBlock := ⟨blockType, tail.take blockLength⟩
      if isLast then some ⟨acc ++ [block], offset + 4 + blockLength⟩
      else parseBlocksLoop f (tail.drop blockLength) (offset + 4 + blockLength) (acc ++ [block])
  | _ + 1, _, offset, acc => some ⟨acc, offset⟩

/-- The `parseBlocks` function: checks the 4-byte "fLaC" magic, then walks
the metadata-block chain from offset 4. -/
def parseBlocks (source : List ℕ) : Option ParsedBlocks :=
  match source with
  | b0 :: b1 :: b2 :: b3 :: rest =>
    if b0 % 256 == 0x66 && b1 % 256 == 0x4c && b2 % 256 == 0x61 && b3 % 256 == 0x43 then
      parseBlocksLoop source.length rest 4 []
    else none
  | _ => none

/-- The `buildBlockHeader` function.  The JS expression
`(isLast ? 0x80000000 : 0) | ((type & 0x7f) << 24) | (length & 0x00ffffff)`
combines three disjoint bit fields, so the bitwise-or equals the sum. -/
def buildBlockHeader (ty : ℕ) (isLast : Bool) (length : ℕ) : List ℕ :=
  u32be ((if isLast then 2147483648 else 0) + ty % 128 * 16777216 + length % 16777216)

/-- The `newBlocks.forEach((block, index) => …)` serialization loop of
`applyFlacTags`: each block is written as header + payload, with the
is-last flag set when the index equals `total - 1`. -/
def writeBlocksAux : List FlacBlock → ℕ → ℕ → List ℕ
  | [], _, _ => []
  | b :: rest, i, total =>
    buildBlockHeader b.type (i == total - 1) b.data.length ++ b.data
      ++ writeBlocksAux rest (i + 1) total

/-- The `hasMetadata` test of `applyFlacTags`:
`Boolean(metadata && Object.values(metadata).some(Boolean))`. -/
def hasMetadataB : Option FlacTagMetadata → Bool
  | some md =>
    fieldTruthy md.title || fieldTruthy md.artist || fieldTruthy md.album
      || fieldTruthy md.date || fieldTruthy md.trackNumber
  | none => false

/-- The `hasCover` test of `applyFlacTags`:
`Boolean(cover && cover.buffer.length > 0)`. -/
def hasCoverB : Option FlacPicture → Bool
  | some pc => !pc.buffer.isEmpty
  | none => false

/-- The `if (hasMetadata && metadata) newBlocks.push({type: 4, …})` step of
`applyFlacTags`: the new VORBIS_COMMENT blocks pushed (none or one). -/
def newCommentBlocks (metadata : Option FlacTagMetadata) : List FlacBlock :=
  match metadata with
  | some md => if hasMetadataB (some md) then [⟨4, buildVorbisCommentBlock md⟩] else []
  | none => []

/-- The `if (hasCover && cover) newBlocks.push({type: 6, …})` step of
`applyFlacTags`: the new PICTURE blocks pushed (none or one). -/
def newPictureBlocks (cover : Option FlacPicture) : List FlacBlock :=
  match cover with
  | some pc => if hasCoverB (some pc) then [⟨6, buildPictureBlock pc⟩] else []
  | none => []

/-- The `applyFlacTags` function, translated clause by clause from the
source: identity fast path, parse, require a STREAMINFO block, rebuild the
chain (STREAMINFO, new comment block, new picture block, all other blocks
except old comment/picture blocks), then magic + serialized chain + the
original audio bytes. -/
def applyFlacTags (source : List ℕ) (metadata : Option FlacTagMetadata)
    (cover : Option FlacPicture) : List ℕ :=
  if hasMetadataB metadata || hasCoverB cover then
    match parseBlocks source with
    | none => source
    | some parsed =>
      match parsed.blocks.find? (fun b => b.type == 0) with
      | none => source
      | some streamInfo =>
        let otherBlocks := parsed.blocks.filter
          (fun b => !(b.type == 0) && !(b.type == 4) && !(b.type == 6))
        let newBlocks : List FlacBlock :=
          ⟨0, streamInfo.data⟩ ::
            (newCommentBlocks metadata ++ newPictureBlocks cover ++ otherBlocks)
        let audioData := source.drop parsed.audioOffset
        flacMagic ++ writeBlocksAux newBlocks 0 newBlocks.length ++ audioData
  else source

/-- Specification-side serialization of a block chain: every block is
written as header + payload and the is-last header bit is set on exactly
the final block of the chain. -/
def serializeChainSpec : List FlacBlock → List ℕ
  | [] => []
  | [b] => buildBlockHeader b.type true b.data.length ++ b.data
  | b :: c :: rest =>
    buildBlockHeader b.type false b.data.length ++ b.data ++ serializeChainSpec (c :: rest)

/-- Specification-side magic test (the four bytes "fLaC" at the start). -/
def hasFlacMagic : List ℕ → Bool
  | b0 :: b1 :: b2 :: b3 :: _ =>
    b0 % 256 == 0x66 && b1 % 256 == 0x4c && b2 % 256 == 0x61 && b3 % 256 == 0x43
  | _ => false

end SpotDl

namespace SpotDl

/-! ## JavaScript number model

JavaScript numbers reaching the manifest resolver are produced by
`Number(attributeString)` on decimal (or hex/octal/binary) numerals and then
only added to, compared, and printed.  They are modelled exactly as scaled
decimals `mant / 10^shift`; `Option JsNum` adds `none` for the non-finite
results (`NaN`, `±Infinity`), which every use in the source guards with
`Number.isFinite`.  The model is exact on the decimal values exercised by
the program (IEEE doubles round-trip short decimal literals through
`String(…)` unchanged); float rounding of extreme literals is out of scope. -/

/-- A finite JavaScript number, represented as `mant / 10 ^ shift`. -/
structure JsNum where
  mant : ℤ
  shift : ℕ
deriving DecidableEq

/-- Rational value of a `JsNum` (specification-side bridge). -/
def jsVal (n : JsNum) : ℚ := (n.mant : ℚ) / 10 ^ n.shift

/-- JS `a < b` on finite numbers (cross-multiplied, since `10^s > 0`). -/
def jsLt (a b : JsNum) : Bool := a.mant * 10 ^ b.shift < b.mant * 10 ^ a.shift

/-- JS `x >= 0` on a finite number. -/
def jsNonneg (n : JsNum) : Bool := 0 ≤ n.mant

/-- JS `x <= 0` on a finite number. -/
def jsLeZero (n : JsNum) : Bool := n.mant ≤ 0

/-- JS `x > 0` on a finite number. -/
def jsPos (n : JsNum) : Bool := 0 < n.mant

/-- JS `x + 1` on a finite number. -/
def jsAddOne (n : JsNum) : JsNum := ⟨n.mant + 10 ^ n.shift, n.shift⟩

/-- The number `x + i` for a natural `i` (specification-side shorthand for
`i` successive `jsAddOne` steps). -/
def jsAddNat (n : JsNum) (i : ℕ) : JsNum := ⟨n.mant + i * 10 ^ n.shift, n.shift⟩

/-- Embedding of a loop counter into the number model. -/
def jsOfNat (i : ℕ) : JsNum := ⟨i, 0⟩

/-- The number 1 (used for `repeat = 1` and the default start number). -/
def jsOne : JsNum := ⟨1, 0⟩

/-- Computable ceiling of the value of a `JsNum` (equals `⌈jsVal n⌉`,
see `jsCeilZ_eq_ceil`). -/
def jsCeilZ (n : JsNum) : ℤ := -((-n.mant) / (10 ^ n.shift : ℤ))

/-- The computable ceiling agrees with the rational ceiling. -/
theorem jsCeilZ_eq_ceil (n : JsNum) : jsCeilZ n = ⌈jsVal n⌉ := by
  have h : ⌈jsVal n⌉ = -⌊-jsVal n⌋ := by
    have := Int.ceil_neg (α := ℚ) (a := -jsVal n)
    simpa using this.symm
  rw [h, jsCeilZ, jsVal]
  have : -((n.mant : ℚ) / 10 ^ n.shift) = ((-n.mant : ℤ) : ℚ) / ((10 ^ n.shift : ℕ) : ℚ) := by
    push_cast
    ring
  rw [this, Rat.floor_intCast_div_natCast]
  norm_num

/-- Character-level digit test for the numeral scanners. -/
def isDigitC (c : Char) : Bool := decide ('0' ≤ c) && decide (c ≤ '9')

/-- Value of a decimal digit character. -/
def digitVal (c : Char) : ℕ := c.toNat - 48

/-- Accumulate a run of decimal digits into a natural number. -/
def decDigitsVal (ds : List Char) : ℕ := ds.foldl (fun a c => a * 10 + digitVal c) 0

/-- Hexadecimal digit value, if the character is one. -/
def hexDigitVal (c : Char) : Option ℕ :=
  if isDigitC c then some (digitVal c)
  else if decide ('a' ≤ c) && decide (c ≤ 'f') then some (c.toNat - 87)
  else if decide ('A' ≤ c) && decide (c ≤ 'F') then some (c.toNat - 55)
  else none

/-- Digit value in an arbitrary base up to 16, if valid for that base. -/
def baseDigitVal (base : ℕ) (c : Char) : Option ℕ :=
  match hexDigitVal c with
  | some v => if v < base then some v else none
  | none => none

/-- Worker for `baseDigitsVal`. -/
def baseDigitsValGo (base : ℕ) : List Char → ℕ → Option ℕ
  | [], acc => some acc
  | c :: rest, acc =>
    match baseDigitVal base c with
    | some v => baseDigitsValGo base rest (acc * base + v)
    | none => none

/-- Accumulate digits of the given base; `none` when empty or any character
is invalid (the whole literal must consist of digits). -/
def baseDigitsVal (base : ℕ) : List Char → Option ℕ
  | [] => none
  | cs => baseDigitsValGo base cs 0

/-- The JavaScript whitespace set (`StrWhiteSpace`: WhiteSpace and
LineTerminator characters), used by `Number(…)` trimming, `String.trim`
and the regex class `\s`. -/
def isJsWs (c : Char) : Bool :=
  c == ' ' || c == '\t' || c == '\n' || c == '\r'
    || c.toNat == 11 || c.toNat == 12 || c.toNat == 0xa0 || c.toNat == 0x1680
    || (0x2000 ≤ c.toNat && c.toNat ≤ 0x200a)
    || c.toNat == 0x2028 || c.toNat == 0x2029 || c.toNat == 0x202f
    || c.toNat == 0x205f || c.toNat == 0x3000 || c.toNat == 0xfeff

/-- Trim JS whitespace from both ends of a character list. -/
def jsTrimChars (cs : List Char) : List Char :=
  ((cs.dropWhile isJsWs).reverse.dropWhile isJsWs).reverse

/-- JS `String.prototype.trim`. -/
def jsTrim (s : String) : String := String.mk (jsTrimChars s.data)

/-- Apply an all-digits exponent (`positive = false` for a minus sign). -/
def jsNumPosWholeExp (sign : ℤ) (mant : ℕ) (shift : ℕ) (cs : List Char)
    (positive : Bool) : Option JsNum :=
  match baseDigitsVal 10 cs with
  | some ev => if positive then some ⟨sign * mant * 10 ^ ev, shift⟩
               else some ⟨sign * mant, shift + ev⟩
  | none => none

/-- Exponent suffix of a decimal numeral (`e`/`E`, optional sign, digits);
`none` when the remaining characters are not exactly a valid exponent. -/
def jsNumExponent (sign : ℤ) (mant : ℕ) (shift : ℕ) : List Char → Option JsNum
  | [] => some ⟨sign * mant, shift⟩
  | e :: rest =>
    if e == 'e' || e == 'E' then
      match rest with
      | '+' :: rest2 => jsNumPosWholeExp sign mant shift rest2 true
      | '-' :: rest2 => jsNumPosWholeExp sign mant shift rest2 false
      | rest2 => jsNumPosWholeExp sign mant shift rest2 true
    else none

/-- A signed decimal numeral body: `Digits [. Digits] [exp]`,
`. Digits [exp]`, requiring at least one digit overall. -/
def jsNumDecimal (sign : ℤ) (cs : List Char) : Option JsNum :=
  let ds := cs.takeWhile isDigitC
  let rest := cs.dropWhile isDigitC
  match rest with
  | '.' :: rest2 =>
    let fs := rest2.takeWhile isDigitC
    let rest3 := rest2.dropWhile isDigitC
    if ds.isEmpty && fs.isEmpty then none
    else jsNumExponent sign (decDigitsVal ds * 10 ^ fs.length + decDigitsVal fs) fs.length rest3
  | _ => if ds.isEmpty then none else jsNumExponent sign (decDigitsVal ds) 0 rest

/-- Sign handling and the `Infinity` literal for `Number(string)`. -/
def jsNumSigned (cs : List Char) : Option JsNum :=
  match cs with
  | '+' :: rest => if rest = "Infinity".data then none else jsNumDecimal 1 rest
  | '-' :: rest => if rest = "Infinity".data then none else jsNumDecimal (-1) rest
  | rest => if rest = "Infinity".data then none else jsNumDecimal 1 rest

/-- The `Number(string)` conversion on the trimmed character list: empty
means 0; `0x`/`0o`/`0b` literals (no sign) in their bases; otherwise an
optionally signed decimal numeral or `Infinity` (non-finite, `none`).
Anything else is `NaN` (`none`). -/
def jsNumberOfChars (cs : List Char) : Option JsNum :=
  match cs with
  | [] => some ⟨0, 0⟩
  | '0' :: x :: rest =>
    if x == 'x' || x == 'X' then (baseDigitsVal 16 rest).map (fun v => ⟨v, 0⟩)
    else if x == 'o' || x == 'O' then (baseDigitsVal 8 rest).map (fun v => ⟨v, 0⟩)
    else if x == 'b' || x == 'B' then (baseDigitsVal 2 rest).map (fun v => ⟨v, 0⟩)
    else jsNumSigned cs
  | _ => jsNumSigned cs

/-- JS `Number(string)`: trim, then parse; `none` models a non-finite
result. -/
def jsNumber (s : String) : Option JsNum := jsNumberOfChars (jsTrimChars s.data)

/-- Remove factors of ten shared by mantissa and shift, for printing. -/
def stripTens : ℤ → ℕ → JsNum
  | m, 0 => ⟨m, 0⟩
  | m, s + 1 => if m % 10 == 0 then stripTens (m / 10) s else ⟨m, s + 1⟩

/-- Left-pad a numeral with zeros to the given width. -/
def padZeros (s : String) (k : ℕ) : String :=
  String.mk (List.replicate (k - s.length) '0') ++ s

/-- JS `String(number)` for the finite numbers this program prints: sign,
integer part, and (for non-integers) a point and the exact decimal
fraction with no trailing zeros — the shortest round-trip form of the
decimal values in scope. -/
def jsNumToString (n : JsNum) : String :=
  let m := stripTens n.mant n.shift
  let sign := if m.mant < 0 then "-" else ""
  let a := m.mant.natAbs
  if m.shift == 0 then sign ++ Nat.repr a
  else sign ++ Nat.repr (a / 10 ^ m.shift) ++ "." ++ padZeros (Nat.repr (a % 10 ^ m.shift)) m.shift

end SpotDl

namespace SpotDl

/-! ## Regex model

The manifest module uses four fixed JavaScript regexes.  They are embedded
through a tiny backtracking matcher over an item list, which implements
exactly the regex constructs those patterns use: literal runs, greedy
character classes with a minimum count, the lazy any-character star
`[\s\S]*?`, and an optional single character.  Leftmost-match scanning and
`matchAll`-style repetition are layered on top. -/

/-- One regex item: literal characters, a greedy character class with a
minimum repeat count, the lazy `[\s\S]*?`, or an optional character. -/
inductive RItem where
  | lit : List Char → RItem
  | greedy : (Char → Bool) → ℕ → RItem
  | lazyStar : RItem
  | optChar : Char → RItem

/-- Backtracking helper: try consume counts `lo + n`, `lo + n - 1`, …, `lo`
(largest first, as a greedy quantifier does), returning the first success
consed onto the consumed count. -/
def tryDesc (next : ℕ → Option (List ℕ)) (lo : ℕ) : ℕ → Option (List ℕ)
  | 0 => (next lo).map (fun ls => lo :: ls)
  | n + 1 =>
    match next (lo + n + 1) with
    | some ls => some ((lo + n + 1) :: ls)
    | none => tryDesc next lo n

/-- Backtracking helper: try consume counts `k`, `k+1`, …, `k+n` (smallest
first, as a lazy quantifier does). -/
def tryAsc (next : ℕ → Option (List ℕ)) : ℕ → ℕ → Option (List ℕ)
  | k, 0 => (next k).map (fun ls => k :: ls)
  | k, n + 1 =>
    match next k with
    | some ls => some (k :: ls)
    | none => tryAsc next (k + 1) n

/-- Match an item list against the start of `cs`, returning the number of
characters consumed by each item (in order) of the first match in
backtracking order, or `none`.  This is the regex engine's anchored match
at one position. -/
def matchItems : List RItem → List Char → Option (List ℕ)
  | [], _ => some []
  | .lit l :: rest, cs =>
    if l.isPrefixOf cs then (matchItems rest (cs.drop l.length)).map (fun ls => l.length :: ls)
    else none
  | .greedy p mn :: rest, cs =>
    let mx := (cs.takeWhile p).length
    if mx < mn then none
    else tryDesc (fun k => matchItems rest (cs.drop k)) mn (mx - mn)
  | .lazyStar :: rest, cs => tryAsc (fun k => matchItems rest (cs.drop k)) 0 cs.length
  | .optChar c :: rest, cs =>
    match cs with
    | d :: tail =>
      if d == c then
        match matchItems rest tail with
        | some ls => some (1 :: ls)
        | none => (matchItems rest cs).map (fun ls => 0 :: ls)
      else (matchItems rest cs).map (fun ls => 0 :: ls)
    | [] => (matchItems rest []).map (fun ls => 0 :: ls)

/-- Leftmost match: scan start positions left to right and return the
first position where the anchored match succeeds, with the per-item
consumed counts. -/
def regexFind (items : List RItem) : List Char → Option (ℕ × List ℕ)
  | [] => (matchItems items []).map (fun ls => (0, ls))
  | c :: rest =>
    match matchItems items (c :: rest) with
    | some ls => some (0, ls)
    | none => (regexFind items rest).map (fun pl => (pl.1 + 1, pl.2))

/-- Characters consumed by a whole match (sum of per-item counts). -/
def lensTotal (lens : List ℕ) : ℕ := lens.foldl (· + ·) 0

/-- Slice the text consumed by item `i` of a match at position `pos`
(items consume consecutive characters, so item `i` starts after the
counts of items before it). -/
def sliceGroup (cs : List Char) (pos : ℕ) (lens : List ℕ) (i : ℕ) : List Char :=
  (cs.drop (pos + lensTotal (lens.take i))).take (lens.getD i 0)

/-- Word characters of the regex class `\w` (`[A-Za-z0-9_]`). -/
def isWordChar (c : Char) : Bool :=
  (decide ('a' ≤ c) && decide (c ≤ 'z')) || (decide ('A' ≤ c) && decide (c ≤ 'Z'))
    || isDigitC c || c == '_'

/-- Item list of `/<SegmentTemplate\s+([^>]+)>/`; the capture group is
item index 2. -/
def templateItems : List RItem :=
  [.lit "<SegmentTemplate".data, .greedy isJsWs 1, .greedy (fun c => !(c == '>')) 1, .lit ['>']]

/-- Item list of `/<SegmentTimeline>([\s\S]*?)<\/SegmentTimeline>/`; the
capture group is item index 1. -/
def timelineItems : List RItem :=
  [.lit "<SegmentTimeline>".data, .lazyStar, .lit "</SegmentTimeline>".data]

/-- Item list of `/<S\s+([^\/>]+)\/?\s*>/` (the `<S …>` elements scanned by
`matchAll`); the capture group is item index 2. -/
def sItems : List RItem :=
  [.lit "<S".data, .greedy isJsWs 1, .greedy (fun c => !(c == '/') && !(c == '>')) 1,
    .optChar '/', .greedy isJsWs 0, .lit ['>']]

/-- Item list of `/(\w+)="([^"]*)"/` used by `parseAttributes`; the capture
groups are item indices 0 (name) and 2 (value). -/
def attrItems : List RItem :=
  [.greedy isWordChar 1, .lit ['=', '"'], .greedy (fun c => !(c == '"')) 0, .lit ['"']]

/-- The capture group of the first `<SegmentTemplate …>` match
(`templateMatch[1]`), if any. -/
def templateGroup (cs : List Char) : Option (List Char) :=
  (regexFind templateItems cs).map (fun pl => sliceGroup cs pl.1 pl.2 2)

/-- The capture group of the first `<SegmentTimeline>…</SegmentTimeline>`
match (`timelineMatch[1]`), if any. -/
def timelineGroup (cs : List Char) : Option (List Char) :=
  (regexFind timelineItems cs).map (fun pl => sliceGroup cs pl.1 pl.2 1)

/-- The `matchAll` loop over `<S …>` elements: find the leftmost match,
emit its capture group, and continue after the match (`lastIndex` moves to
the match end; the guard `max 1` models the engine's empty-match bump and
is never hit since every match here consumes at least four characters).
Fuel dominates the iteration count because every step drops at least one
character. -/
def sMatchesF : ℕ → List Char → List (List Char)
  | 0, _ => []
  | f + 1, cs =>
    match regexFind sItems cs with
    | none => []
    | some (pos, lens) =>
      sliceGroup cs pos lens 2 :: sMatchesF f (cs.drop (pos + max 1 (lensTotal lens)))

/-- All `<S …>` capture groups in order (`timeline.matchAll`). -/
def sMatches (cs : List Char) : List (List Char) := sMatchesF (cs.length + 1) cs

/-- The `matchAll`-style worker of `parseAttributes`: find each
`name="value"` match, record (name, value), continue after the match. -/
def attrMatchesF : ℕ → List Char → List (String × String)
  | 0, _ => []
  | f + 1, cs =>
    match regexFind attrItems cs with
    | none => []
    | some (pos, lens) =>
      (String.mk (sliceGroup cs pos lens 0), String.mk (sliceGroup cs pos lens 2))
        :: attrMatchesF f (cs.drop (pos + max 1 (lensTotal lens)))

/-- The `parseAttributes` function: scan all `(\w+)="([^"]*)"` pairs in
order. -/
def parseAttributes (cs : List Char) : List (String × String) :=
  attrMatchesF (cs.length + 1) cs

/-- Lookup in the attribute record built by repeated assignment
(`attributes[key] = value`): the value of the last matching pair wins. -/
def recordGet (attrs : List (String × String)) (key : String) : Option String :=
  attrs.foldl (fun acc p => if p.1 == key then some p.2 else acc) none

/-- First index at which `pat` occurs as a contiguous sublist of `cs`
(JS `String.prototype.indexOf`). -/
def idxOfSub (cs pat : List Char) : Option ℕ :=
  if pat.isPrefixOf cs then some 0
  else
    match cs with
    | [] => none
    | _ :: rest => (idxOfSub rest pat).map (· + 1)

/-- JS `media.includes(pat)`. -/
def includesStr (s pat : String) : Bool := (idxOfSub s.data pat.data).isSome

/-- JS `s.replace(pat, rep)` with a string pattern: replace the first
occurrence only (the replacement strings used here contain no `$`
patterns). -/
def replaceFirstStr (s pat rep : String) : String :=
  match idxOfSub s.data pat.data with
  | none => s
  | some i => String.mk (s.data.take i ++ rep.data ++ s.data.drop (i + pat.data.length))

end SpotDl

namespace SpotDl

/-! ## MPD segment template resolver -/

/-- One parsed `<S …>` timeline entry (`{d, r}`). -/
structure TimelineEntry where
  d : JsNum
  r : JsNum
deriving DecidableEq

/-- The `SegmentTemplate` record passed to `buildSegmentUrls`. -/
structure SegmentTemplate where
  initialization : String
  media : String
  startNumber : JsNum
  timeline : List TimelineEntry
deriving DecidableEq

/-- The `SegmentUrls` result record. -/
structure SegmentUrls where
  initialization : String
  segments : List String
deriving DecidableEq

/-- The inner `for (let i = 0; i < repeat; i++)` loop of
`buildSegmentUrls`: push `media.replace("$Number$", String(currentNumber))`
and increment the running number.  The counter `i` is compared with the
(possibly fractional) `repeat` as JS numbers.  Fuel dominates the
iteration count (`jsCeilZ repeat` iterations at most, see
`entryLoop_spec`). -/
def entryLoop (media : String) (rep : JsNum) : ℕ → ℕ → JsNum → List String × JsNum
  | 0, _, cur => ([], cur)
  | f + 1, i, cur =>
    if jsLt (jsOfNat i) rep then
      let s := replaceFirstStr media "$Number$" (jsNumToString cur)
      let p := entryLoop media rep f (i + 1) (jsAddOne cur)
      (s :: p.1, p.2)
    else ([], cur)

/-- The outer `for (const entry of template.timeline)` loop of
`buildSegmentUrls`, threading the running segment number:
`repeat = entry.r >= 0 ? entry.r + 1 : 1`. -/
def timelineLoop (media : String) : List TimelineEntry → JsNum → List String × JsNum
  | [], cur => ([], cur)
  | e :: rest, cur =>
    let rep := if jsNonneg e.r then jsAddOne e.r else jsOne
    let p := entryLoop media rep ((jsCeilZ rep).toNat + 1) 0 cur
    let q := timelineLoop media rest p.2
    (p.1 ++ q.1, q.2)

/-- The `buildSegmentUrls` function: require the `$Number$` token in
`media`, then expand the timeline into numbered segment URLs. -/
def buildSegmentUrls (template : SegmentTemplate) : Option SegmentUrls :=
  if includesStr template.media "$Number$" then
    some ⟨template.initialization,
      (timelineLoop template.media template.timeline template.startNumber).1⟩
  else none

/-- The timeline-building loop of `parseMpdSegmentUrls`: for each `<S …>`
capture group, read `d` (default "0") and `r` (default "0"); skip entries
whose `d` is non-finite or `<= 0`; a non-finite `r` becomes 0. -/
def buildTimeline (groups : List (List Char)) : List TimelineEntry :=
  groups.filterMap (fun g =>
    if g.isEmpty then none
    else
      let attrs := parseAttributes g
      match jsNumber ((recordGet attrs "d").getD "0") with
      | none => none
      | some d =>
        if jsLeZero d then none
        else some ⟨d, (match jsNumber ((recordGet attrs "r").getD "0") with
                       | some r => r
                       | none => ⟨0, 0⟩)⟩)

/-- The `parseMpdSegmentUrls` function, translated clause by clause:
template-tag match, attribute extraction, the `!initialization || !media`
falsiness test, timeline-block match, `<S …>` filtering, and the
`Number.isFinite(startNumber) && startNumber > 0 ? startNumber : 1`
default before calling `buildSegmentUrls`. -/
def parseMpdSegmentUrls (mpdText : String) : Option SegmentUrls :=
  match templateGroup mpdText.data with
  | none => none
  | some g =>
    if g.isEmpty then none
    else
      let attrs := parseAttributes g
      let initialization := recordGet attrs "initialization"
      let media := recordGet attrs "media"
      let startNumber := jsNumber ((recordGet attrs "startNumber").getD "1")
      if initialization.getD "" == "" || media.getD "" == "" then none
      else
        match timelineGroup mpdText.data with
        | none => none
        | some tg =>
          if tg.isEmpty then none
          else
            let timeline := buildTimeline (sMatches tg)
            if timeline.isEmpty then none
            else
              buildSegmentUrls
                ⟨initialization.getD "", media.getD "",
                  (match startNumber with
                   | some q => if jsPos q then q else jsOne
                   | none => jsOne),
                  timeline⟩

end SpotDl

namespace SpotDl

/-! ## Manifest decoding: base64, UTF-8, JSON

`decodeManifest` runs `Buffer.from(manifest, "base64")`, decodes the bytes
as UTF-8 (replacement-character policy), trims, and classifies.  The
decoders below model the Node semantics on the inputs in scope: base64
ignores characters outside the (standard plus url-safe) alphabet and stops
at the first `=`; UTF-8 decoding replaces invalid sequences with U+FFFD;
`JSON.parse` is the strict JSON grammar (a thrown error is `none`). -/

/-- Value of one base64 alphabet character (standard plus url-safe). -/
def b64Val (c : Char) : Option ℕ :=
  if decide ('A' ≤ c) && decide (c ≤ 'Z') then some (c.toNat - 65)
  else if decide ('a' ≤ c) && decide (c ≤ 'z') then some (c.toNat - 71)
  else if isDigitC c then some (c.toNat + 4)
  else if c == '+' || c == '-' then some 62
  else if c == '/' || c == '_' then some 63
  else none

/-- Six-bit groups of a base64 string: stop at the first padding `=`,
ignore all other non-alphabet characters (Node's forgiving decoder). -/
def base64Collect (cs : List Char) : List ℕ :=
  (cs.takeWhile (fun c => !(c == '='))).filterMap b64Val

/-- Reassemble 6-bit groups into bytes; a trailing group of fewer than
four units yields the complete bytes it determines (trailing bits drop). -/
def b64Chunks : List ℕ → List ℕ
  | a :: b :: c :: d :: rest =>
    (a * 4 + b / 16) :: (b % 16 * 16 + c / 4) :: (c % 4 * 64 + d) :: b64Chunks rest
  | [a, b] => [a * 4 + b / 16]
  | [a, b, c] => [a * 4 + b / 16, b % 16 * 16 + c / 4]
  | _ => []

/-- Node `Buffer.from(string, "base64")`. -/
def base64Decode (s : String) : List ℕ := b64Chunks (base64Collect s.data)

/-- Continuation-byte test for UTF-8 decoding. -/
def utf8Cont (b : ℕ) : Bool := 128 ≤ b % 256 && b % 256 < 192

/-- The replacement character U+FFFD. -/
def replChar : Char := Char.ofNat 0xfffd

/-- WHATWG UTF-8 decoding with replacement (Node `buffer.toString("utf8")`):
invalid lead bytes, truncated sequences, out-of-range continuations,
overlong forms and surrogate encodings all produce U+FFFD, resuming at the
offending byte.  Fuel dominates the step count since every step consumes
at least one byte. -/
def utf8DecodeChars : ℕ → List ℕ → List Char
  | 0, _ => []
  | _, [] => []
  | f + 1, b :: rest =>
    let b0 := b % 256
    if b0 < 128 then Char.ofNat b0 :: utf8DecodeChars f rest
    else if b0 < 194 then replChar :: utf8DecodeChars f rest
    else if b0 < 224 then
      match rest with
      | c1 :: rest2 =>
        if utf8Cont c1 then
          Char.ofNat ((b0 - 192) * 64 + (c1 % 256 - 128)) :: utf8DecodeChars f rest2
        else replChar :: utf8DecodeChars f rest
      | [] => [replChar]
    else if b0 < 240 then
      match rest with
      | c1 :: rest2 =>
        if (if b0 == 224 then 160 ≤ c1 % 256 && c1 % 256 < 192
            else if b0 == 237 then 128 ≤ c1 % 256 && c1 % 256 < 160
            else utf8Cont c1) then
          match rest2 with
          | c2 :: rest3 =>
            if utf8Cont c2 then
              Char.ofNat ((b0 - 224) * 4096 + (c1 % 256 - 128) * 64 + (c2 % 256 - 128))
                :: utf8DecodeChars f rest3
            else replChar :: utf8DecodeChars f rest2
          | [] => [replChar]
        else replChar :: utf8DecodeChars f rest
      | [] => [replChar]
    else if b0 < 245 then
      match rest with
      | c1 :: rest2 =>
        if (if b0 == 240 then 144 ≤ c1 % 256 && c1 % 256 < 192
            else if b0 == 244 then 128 ≤ c1 % 256 && c1 % 256 < 144
            else utf8Cont c1) then
          match rest2 with
          | c2 :: rest3 =>
            if utf8Cont c2 then
              match rest3 with
              | c3 :: rest4 =>
                if utf8Cont c3 then
                  Char.ofNat ((b0 - 240) * 262144 + (c1 % 256 - 128) * 4096
                      + (c2 % 256 - 128) * 64 + (c3 % 256 - 128))
                    :: utf8DecodeChars f rest4
                else replChar :: utf8DecodeChars f rest3
              | [] => [replChar]
            else replChar :: utf8DecodeChars f rest2
          | [] => [replChar]
        else replChar :: utf8DecodeChars f rest
      | [] => [replChar]
    else replChar :: utf8DecodeChars f rest

/-- Node `buffer.toString("utf8")`. -/
def utf8DecodeStr (bytes : List ℕ) : String :=
  String.mk (utf8DecodeChars (bytes.length + 1) bytes)

/-- A JSON value as produced by `JSON.parse`. -/
inductive JsonVal where
  | null : JsonVal
  | bool : Bool → JsonVal
  | num : JsNum → JsonVal
  | str : String → JsonVal
  | arr : List JsonVal → JsonVal
  | obj : List (String × JsonVal) → JsonVal

/-- JSON whitespace (`ws` of RFC 8259). -/
def isJsonWs (c : Char) : Bool := c == ' ' || c == '\t' || c == '\n' || c == '\r'

/-- Skip JSON whitespace. -/
def skipJsonWs (cs : List Char) : List Char := cs.dropWhile isJsonWs

/-- Combine a `\uXXXX` code unit (and, for a high surrogate followed by a
low one, the pair) into a character; a lone surrogate becomes U+FFFD
(JavaScript strings may hold lone surrogates, Lean characters cannot). -/
def jsonUnit (u : ℕ) (u2 : Option ℕ) : Char × Bool :=
  if 0xd800 ≤ u && u < 0xdc00 then
    match u2 with
    | some v =>
      if 0xdc00 ≤ v && v < 0xe000 then
        (Char.ofNat (0x10000 + (u - 0xd800) * 1024 + (v - 0xdc00)), true)
      else (replChar, false)
    | none => (replChar, false)
  else if 0xdc00 ≤ u && u < 0xe000 then (replChar, false)
  else (Char.ofNat u, false)

/-- Four hex digits, if present. -/
def fourHex : List Char → Option (ℕ × List Char)
  | a :: b :: c :: d :: rest =>
    match hexDigitVal a, hexDigitVal b, hexDigitVal c, hexDigitVal d with
    | some x, some y, some z, some w => some (((x * 16 + y) * 16 + z) * 16 + w, rest)
    | _, _, _, _ => none
  | _ => none

/-- Body of a JSON string after the opening quote: returns the decoded
characters and the text after the closing quote.  Unescaped control
characters are rejected, escapes follow RFC 8259. -/
def jsonStringBody (fuel : ℕ) (cs : List Char) : Option (List Char × List Char) :=
  match fuel, cs with
  | 0, _ => none
  | _, [] => none
  | f + 1, c :: rest =>
    if c == '"' then some ([], rest)
    else if c == '\\' then
      match rest with
      | [] => none
      | e :: rest2 =>
        if e == 'u' then
          match fourHex rest2 with
          | none => none
          | some (u, rest3) =>
            if 0xd800 ≤ u && u < 0xdc00 then
              match rest3 with
              | '\\' :: 'u' :: rest4 =>
                match fourHex rest4 with
                | some (v, rest5) =>
                  let p := jsonUnit u (some v)
                  if p.2 then (jsonStringBody f rest5).map (fun q => (p.1 :: q.1, q.2))
                  else (jsonStringBody f rest3).map (fun q => (replChar :: q.1, q.2))
                | none => (jsonStringBody f rest3).map (fun q => (replChar :: q.1, q.2))
              | _ => (jsonStringBody f rest3).map (fun q => (replChar :: q.1, q.2))
            else (jsonStringBody f rest3).map (fun q => ((jsonUnit u none).1 :: q.1, q.2))
        else
          let esc : Option Char :=
            if e == '"' then some '"'
            else if e == '\\' then some '\\'
            else if e == '/' then some '/'
            else if e == 'b' then some (Char.ofNat 8)
            else if e == 'f' then some (Char.ofNat 12)
            else if e == 'n' then some '\n'
            else if e == 'r' then some '\r'
            else if e == 't' then some '\t'
            else none
          match esc with
          | some ch => (jsonStringBody f rest2).map (fun q => (ch :: q.1, q.2))
          | none => none
    else if c.toNat < 32 then none
    else (jsonStringBody f rest).map (fun q => (c :: q.1, q.2))

/-- Optional exponent of a JSON number. -/
def jsonNumberExp (mant : ℕ) (shift : ℕ) (cs : List Char) : Option (JsNum × List Char) :=
  match cs with
  | e :: rest =>
    if e == 'e' || e == 'E' then
      let (neg, rest2) :=
        match rest with
        | '+' :: t => (false, t)
        | '-' :: t => (true, t)
        | t => (false, t)
      let es := rest2.takeWhile isDigitC
      let rest3 := rest2.dropWhile isDigitC
      if es.isEmpty then none
      else
        let ev := decDigitsVal es
        if neg then some (⟨mant, shift + ev⟩, rest3)
        else some (⟨mant * 10 ^ ev, shift⟩, rest3)
    else some (⟨mant, shift⟩, cs)
  | [] => some (⟨mant, shift⟩, cs)

/-- Unsigned part of a JSON number: integer part without leading zeros,
optional fraction, optional exponent. -/
def jsonNumberBody (cs : List Char) : Option (JsNum × List Char) :=
  let ds := cs.takeWhile isDigitC
  let rest := cs.dropWhile isDigitC
  if ds.isEmpty then none
  else if 1 < ds.length && ds.getD 0 '0' == '0' then none
  else
    let ip := decDigitsVal ds
    match rest with
    | '.' :: rest2 =>
      let fs := rest2.takeWhile isDigitC
      let rest3 := rest2.dropWhile isDigitC
      if fs.isEmpty then none
      else jsonNumberExp (ip * 10 ^ fs.length + decDigitsVal fs) fs.length rest3
    | _ => jsonNumberExp ip 0 rest

/-- A JSON number (RFC 8259 grammar) starting at `cs`, as a scaled
decimal. -/
def jsonNumber (cs : List Char) : Option (JsNum × List Char) :=
  match cs with
  | '-' :: rest => (jsonNumberBody rest).map (fun p => (⟨-p.1.mant, p.1.shift⟩, p.2))
  | rest => jsonNumberBody rest

end SpotDl

namespace SpotDl

mutual

/-- One JSON value (after skipping whitespace), returning the remaining
text.  Fuel dominates the recursion depth: every nested call consumes at
least one character per two fuel steps, and the wrapper passes
`2 * length + 4`. -/
def parseJsonValue : ℕ → List Char → Option (JsonVal × List Char)
  | 0, _ => none
  | f + 1, cs =>
    match skipJsonWs cs with
    | 'n' :: 'u' :: 'l' :: 'l' :: rest => some (.null, rest)
    | 't' :: 'r' :: 'u' :: 'e' :: rest => some (.bool true, rest)
    | 'f' :: 'a' :: 'l' :: 's' :: 'e' :: rest => some (.bool false, rest)
    | '"' :: rest =>
      (jsonStringBody (rest.length + 1) rest).map (fun p => (.str (String.mk p.1), p.2))
    | '[' :: rest => parseJsonElems f rest true
    | '{' :: rest => parseJsonFields f rest true
    | rest => (jsonNumber rest).map (fun p => (.num p.1, p.2))

/-- Elements of a JSON array after `[` (or after a `,`); `first` marks the
position right after `[`, where `]` closes an empty array. -/
def parseJsonElems : ℕ → List Char → Bool → Option (JsonVal × List Char)
  | 0, _, _ => none
  | f + 1, cs, first =>
    match skipJsonWs cs, first with
    | ']' :: rest, true => some (.arr [], rest)
    | _, _ =>
      match parseJsonValue f cs with
      | none => none
      | some (v, rest) =>
        match skipJsonWs rest with
        | ',' :: rest2 =>
          match parseJsonElems f rest2 false with
          | some (.arr vs, rest3) => some (.arr (v :: vs), rest3)
          | _ => none
        | ']' :: rest2 => some (.arr [v], rest2)
        | _ => none

/-- Members of a JSON object after `{` (or after a `,`); `first` marks the
position right after `{`, where `}` closes an empty object. -/
def parseJsonFields : ℕ → List Char → Bool → Option (JsonVal × List Char)
  | 0, _, _ => none
  | f + 1, cs, first =>
    match skipJsonWs cs, first with
    | '}' :: rest, true => some (.obj [], rest)
    | cs2, _ =>
      match cs2 with
      | '"' :: rest =>
        match jsonStringBody (rest.length + 1) rest with
        | none => none
        | some (key, rest2) =>
          match skipJsonWs rest2 with
          | ':' :: rest3 =>
            match parseJsonValue f rest3 with
            | none => none
            | some (v, rest4) =>
              match skipJsonWs rest4 with
              | ',' :: rest5 =>
                match parseJsonFields f rest5 false with
                | some (.obj fs, rest6) => some (.obj ((String.mk key, v) :: fs), rest6)
                | _ => none
              | '}' :: rest5 => some (.obj [(String.mk key, v)], rest5)
              | _ => none
          | _ => none
      | _ => none

end

/-- JS `JSON.parse`: parse one value and require only whitespace after it;
a thrown `SyntaxError` is `none`. -/
def jsonParse (s : String) : Option JsonVal :=
  match parseJsonValue (2 * s.data.length + 4) s.data with
  | some (v, rest) => if (skipJsonWs rest).isEmpty then some v else none
  | none => none

/-- The decoded result type (`ManifestResult`): a direct URL value or raw
MPD bytes.  The TypeScript type declares `url: string`, but at runtime any
truthy JSON value found at `urls[0]` is returned, so the variant carries a
`JsonVal`. -/
inductive ManifestResult where
  | url : JsonVal → ManifestResult
  | mpd : List ℕ → ManifestResult

/-- Last-wins lookup in a parsed JSON object (JS object member access). -/
def recordGetJson (fields : List (String × JsonVal)) (key : String) : Option JsonVal :=
  fields.foldl (fun acc p => if p.1 == key then some p.2 else acc) none

/-- JS member access `x[0]` as used by `urls?.[0]`: first array element,
first character of a string, or property "0" of an object; `undefined`
(`none`) otherwise.  Optional chaining makes a `null`/missing `urls` give
`undefined` as well. -/
def jsIndexZero : JsonVal → Option JsonVal
  | .arr (x :: _) => some x
  | .str s =>
    match s.data with
    | c :: _ => some (.str (String.mk [c]))
    | [] => none
  | .obj fields => recordGetJson fields "0"
  | _ => none

/-- The `payload.urls?.[0]` access of `decodeManifest`. -/
def urlsFirst : JsonVal → Option JsonVal
  | .obj fields => (recordGetJson fields "urls").bind jsIndexZero
  | _ => none

/-- JS truthiness of a JSON value (`if (!url)`). -/
def jsTruthy : JsonVal → Bool
  | .null => false
  | .bool b => b
  | .num n => !(n.mant == 0)
  | .str s => !s.isEmpty
  | .arr _ => true
  | .obj _ => true

/-- JS `text.startsWith("<")` on the decoded text. -/
def startsWithLt (s : String) : Bool :=
  match s.data with
  | c :: _ => c == '<'
  | [] => false

/-- The `decodeManifest` function, translated clause by clause:
base64-decode, UTF-8 + trim, the `<` test, then the JSON/urls path with
the `try`/`catch` modelled by the `none` branches. -/
def decodeManifest (manifest : String) : Option ManifestResult :=
  let decodedBuffer := base64Decode manifest
  let decodedText := jsTrim (utf8DecodeStr decodedBuffer)
  if startsWithLt decodedText then some (.mpd decodedBuffer)
  else
    match jsonParse decodedText with
    | none => none
    | some payload =>
      match urlsFirst payload with
      | none => none
      | some url => if jsTruthy url then some (.url url) else none

/-- The decoded, trimmed manifest text (observable used by the claims
about `decodeManifest`). -/
def manifestDecodedText (s : String) : String := jsTrim (utf8DecodeStr (base64Decode s))

/-- The JSON value of the decoded text, when it parses. -/
def manifestJson (s : String) : Option JsonVal := jsonParse (manifestDecodedText s)

/-- The `urls?.[0]` value of the decoded manifest, when present. -/
def manifestUrl0 (s : String) : Option JsonVal := (manifestJson s).bind urlsFirst

end SpotDl

namespace SpotDl

/-! ## Lemmas about the FLAC tagger -/

/-- A buffer without the "fLaC" magic never parses. -/
theorem magic_false_parse_none (source : List ℕ) (h : hasFlacMagic source = false) :
    parseBlocks source = none := by
  match source with
  | [] => rfl
  | [_] => rfl
  | [_, _] => rfl
  | [_, _, _] => rfl
  | b0 :: b1 :: b2 :: b3 :: rest =>
    simp only [hasFlacMagic] at h
    simp only [parseBlocks, h, Bool.false_eq_true, if_false]

/-- A field contributes one comment entry exactly when it is truthy. -/
theorem fieldComment_length (k : String) (v : Option String) :
    (fieldComment k v).length = if fieldTruthy v then 1 else 0 := by
  cases v with
  | none => rfl
  | some t =>
    by_cases h : t.isEmpty <;> simp [fieldComment, fieldTruthy, h]

/-- Unfolding equation of `serializeChainSpec` on a chain of two or more
blocks. -/
theorem serializeChainSpec_cons (b c : FlacBlock) (rest : List FlacBlock) :
    serializeChainSpec (b :: c :: rest)
      = buildBlockHeader b.type false b.data.length ++ b.data
          ++ serializeChainSpec (c :: rest) := rfl

/-- The indexed `forEach` writer marks exactly the final block as last,
i.e. it agrees with the specification-side chain serialization. -/
theorem writeBlocksAux_eq_serialize :
    ∀ (blocks : List FlacBlock) (i total : ℕ), total = i + blocks.length →
      writeBlocksAux blocks i total = serializeChainSpec blocks := by
  intro blocks
  induction blocks with
  | nil => intro i total _; rfl
  | cons b rest ih =>
    intro i total htot
    cases rest with
    | nil =>
      have hi : (i == total - 1) = true := by
        subst htot; simp
      simp [writeBlocksAux, serializeChainSpec, hi]
    | cons c rest2 =>
      have hi : (i == total - 1) = false := by
        subst htot
        simp only [List.length_cons, beq_eq_false_iff_ne, ne_eq]
        omega
      simp only [serializeChainSpec]
      rw [← ih (i + 1) total (by subst htot; simp; omega)]
      simp only [writeBlocksAux, hi]

/-- `find?` for the STREAMINFO type returns the first type-0 block. -/
theorem find?_type0 (pre post : List FlacBlock) (si : FlacBlock) (hsi : si.type = 0)
    (hpre : ∀ b ∈ pre, b.type ≠ 0) :
    (pre ++ si :: post).find? (fun b => b.type == 0) = some si := by
  induction pre with
  | nil => simp [List.find?_cons, hsi]
  | cons a pre ih =>
    have ha : (a.type == 0) = false := by simpa using hpre a (by simp)
    simp only [List.cons_append, List.find?_cons, ha]
    exact ih (fun b hb => hpre b (by simp [hb]))

/-- With a unique STREAMINFO block, the source's filter (drop types 0, 4
and 6) equals the claim's description: every block other than the
STREAMINFO except comment/picture blocks. -/
theorem filter_other (pre post : List FlacBlock) (si : FlacBlock) (hsi : si.type = 0)
    (hpre : ∀ b ∈ pre, b.type ≠ 0) (hpost : ∀ b ∈ post, b.type ≠ 0) :
    (pre ++ si :: post).filter (fun b => !(b.type == 0) && !(b.type == 4) && !(b.type == 6))
      = (pre ++ post).filter (fun b => !(b.type == 4) && !(b.type == 6)) := by
  have hcong : ∀ (l : List FlacBlock), (∀ b ∈ l, b.type ≠ 0) →
      l.filter (fun b => !(b.type == 0) && !(b.type == 4) && !(b.type == 6))
        = l.filter (fun b => !(b.type == 4) && !(b.type == 6)) := by
    intro l hl
    apply List.filter_congr
    intro b hb
    have : (b.type == 0) = false := by simpa using hl b hb
    simp [this]
  simp only [List.filter_append, List.filter_cons, hsi]
  norm_num
  rw [hcong pre hpre, hcong post hpost]

/-- Reassembling the four bytes written by `u32be` recovers the value
mod 2^32. -/
theorem readU32BE_u32be (v : ℕ) :
    readU32BE (v / 16777216 % 256) (v / 65536 % 256) (v / 256 % 256) (v % 256)
      = v % 4294967296 := by
  simp only [readU32BE]
  omega

/-- Parsing a serialized chain followed by arbitrary audio bytes recovers
exactly the chain and stops right after it (the round-trip core of the
idempotence proof): requires every block to have a 7-bit type and a
payload shorter than 2^24 bytes. -/
theorem parseLoop_serialize :
    ∀ (chain : List FlacBlock) (audio : List ℕ) (fuel offset : ℕ) (acc : List FlacBlock),
      chain ≠ [] → chain.length < fuel →
      (∀ b ∈ chain, b.type < 128 ∧ b.data.length < 16777216) →
      parseBlocksLoop fuel (serializeChainSpec chain ++ audio) offset acc
        = some ⟨acc ++ chain, offset + (serializeChainSpec chain).length⟩ := by
  intro chain
  induction chain with
  | nil => intro audio fuel offset acc hne _ _; exact absurd rfl hne
  | cons b rest ih =>
    intro audio fuel offset acc _ hfuel hbounds
    obtain ⟨f, rfl⟩ : ∃ f, fuel = f + 1 := ⟨fuel - 1, by omega⟩
    have hb := hbounds b (by simp)
    cases rest with
    | nil =>
      set v := (2147483648 : ℕ) + b.type % 128 * 16777216 + b.data.length % 16777216 with hv
      have hv' : v = 2147483648 + b.type * 16777216 + b.data.length := by
        rw [hv, Nat.mod_eq_of_lt hb.1, Nat.mod_eq_of_lt hb.2]
      have hexp : serializeChainSpec [b] ++ audio
          = v / 16777216 % 256 :: (v / 65536 % 256 :: (v / 256 % 256 :: (v % 256
              :: (b.data ++ audio)))) := by
        simp [serializeChainSpec, buildBlockHeader, u32be, hv]
      rw [hexp]
      have hvlt : v < 4294967296 := by rw [hv']; omega
      simp only [parseBlocksLoop, readU32BE_u32be, Nat.mod_eq_of_lt hvlt]
      have hlast : v / 2147483648 == 1 := by
        rw [hv']; simp; omega
      have hlen : v % 16777216 = b.data.length := by rw [hv']; omega
      have hty : v / 16777216 % 128 = b.type := by
        rw [hv']; omega
      have hguard : ¬ ((b.data ++ audio).length < v % 16777216) := by
        rw [hlen]; simp
      rw [if_neg hguard]
      simp only [hlast, if_true, hlen, hty]
      rw [List.take_left' rfl]
      have : serializeChainSpec [b] = buildBlockHeader b.type true b.data.length ++ b.data := rfl
      rw [this]
      simp [buildBlockHeader, u32be]
      omega
    | cons c rest2 =>
      set v := (0 : ℕ) + b.type % 128 * 16777216 + b.data.length % 16777216 with hv
      have hv' : v = b.type * 16777216 + b.data.length := by
        rw [hv, Nat.mod_eq_of_lt hb.1, Nat.mod_eq_of_lt hb.2]
        omega
      have hexp : serializeChainSpec (b :: c :: rest2) ++ audio
          = v / 16777216 % 256 :: (v / 65536 % 256 :: (v / 256 % 256 :: (v % 256
              :: (b.data ++ (serializeChainSpec (c :: rest2) ++ audio))))) := by
        rw [serializeChainSpec_cons]
        simp [buildBlockHeader, u32be, hv]
      rw [hexp]
      have hvlt : v < 4294967296 := by rw [hv']; omega
      simp only [parseBlocksLoop, readU32BE_u32be, Nat.mod_eq_of_lt hvlt]
      have hlast : (v / 2147483648 == 1) = false := by
        rw [hv']; simp; omega
      have hlen : v % 16777216 = b.data.length := by rw [hv']; omega
      have hty : v / 16777216 % 128 = b.type := by rw [hv']; omega
      have hguard : ¬ ((b.data ++ (serializeChainSpec (c :: rest2) ++ audio)).length
          < v % 16777216) := by
        rw [hlen]; simp
      rw [if_neg hguard]
      simp only [hlast, if_false, hlen, hty, Bool.false_eq_true]
      rw [List.take_left' rfl, List.drop_left' rfl]
      rw [ih audio f (offset + 4 + b.data.length) (acc ++ [b]) (by simp)
        (by simp at hfuel ⊢; omega)
        (fun x hx => hbounds x (by simp [hx]))]
      rw [serializeChainSpec_cons]
      simp [buildBlockHeader, u32be, List.append_assoc]
      omega

/-- Every block produced by the parse loop has a 7-bit type and a payload
shorter than 2^24 bytes (the header fields force both). -/
theorem parseBlocksLoop_bounds :
    ∀ (fuel : ℕ) (rest : List ℕ) (offset : ℕ) (acc : List FlacBlock) (pr : ParsedBlocks),
      (∀ b ∈ acc, b.type < 128 ∧ b.data.length < 16777216) →
      parseBlocksLoop fuel rest offset acc = some pr →
      ∀ b ∈ pr.blocks, b.type < 128 ∧ b.data.length < 16777216 := by
  intro fuel
  induction fuel with
  | zero =>
    intro rest offset acc pr hacc h
    simp [parseBlocksLoop] at h
  | succ f ih =>
    intro rest offset acc pr hacc h
    have hnew : ∀ b0 b1 b2 b3 (tail : List ℕ),
        (⟨readU32BE b0 b1 b2 b3 / 16777216 % 128,
          tail.take (readU32BE b0 b1 b2 b3 % 16777216)⟩ : FlacBlock).type < 128
        ∧ (⟨readU32BE b0 b1 b2 b3 / 16777216 % 128,
            tail.take (readU32BE b0 b1 b2 b3 % 16777216)⟩ : FlacBlock).data.length
            < 16777216 := by
      intro b0 b1 b2 b3 tail
      constructor
      · exact Nat.mod_lt _ (by norm_num)
      · simp only [List.length_take]
        have : readU32BE b0 b1 b2 b3 % 16777216 < 16777216 := Nat.mod_lt _ (by norm_num)
        omega
    rcases rest with _ | ⟨b0, _ | ⟨b1, _ | ⟨b2, _ | ⟨b3, tail⟩⟩⟩⟩
    · simp only [parseBlocksLoop, Option.some.injEq] at h
      rw [← h]; exact hacc
    · simp only [parseBlocksLoop, Option.some.injEq] at h
      rw [← h]; exact hacc
    · simp only [parseBlocksLoop, Option.some.injEq] at h
      rw [← h]; exact hacc
    · simp only [parseBlocksLoop, Option.some.injEq] at h
      rw [← h]; exact hacc
    · simp only [parseBlocksLoop] at h
      by_cases hg : tail.length < readU32BE b0 b1 b2 b3 % 16777216
      · rw [if_pos hg] at h; exact absurd h (by simp)
      · rw [if_neg hg] at h
        by_cases hl : (readU32BE b0 b1 b2 b3 / 2147483648 == 1) = true
        · rw [if_pos hl, Option.some.injEq] at h
          rw [← h]
          intro b hb
          simp only [List.mem_append, List.mem_singleton] at hb
          rcases hb with hb | hb
          · exact hacc b hb
          · rw [hb]; exact hnew b0 b1 b2 b3 tail
        · rw [if_neg hl] at h
          refine ih _ _ _ pr ?_ h
          intro b hb
          simp only [List.mem_append, List.mem_singleton] at hb
          rcases hb with hb | hb
          · exact hacc b hb
          · rw [hb]; exact hnew b0 b1 b2 b3 tail

/-- Parsing a buffer that starts with the magic runs the block loop on the
rest. -/
theorem parseBlocks_magic (X : List ℕ) :
    parseBlocks (flacMagic ++ X) = parseBlocksLoop (X.length + 4) X 4 [] := by
  show parseBlocksLoop (0x66 :: 0x4c :: 0x61 :: 0x43 :: X).length X 4 [] = _
  congr 1

/-- Serialization is at least as long as the chain (4-byte headers). -/
theorem serialize_length_ge :
    ∀ (chain : List FlacBlock), chain.length ≤ (serializeChainSpec chain).length := by
  intro chain
  induction chain with
  | nil => simp [serializeChainSpec]
  | cons b rest ih =>
    cases rest with
    | nil => simp [serializeChainSpec, buildBlockHeader, u32be]
    | cons c r2 =>
      rw [serializeChainSpec_cons]
      simp only [List.length_cons, List.length_append, buildBlockHeader, u32be] at ih ⊢
      simp
      omega

/-- The bounds invariant for a completed `parseBlocks`. -/
theorem parseBlocks_bounds (source : List ℕ) (pr : ParsedBlocks)
    (h : parseBlocks source = some pr) :
    ∀ b ∈ pr.blocks, b.type < 128 ∧ b.data.length < 16777216 := by
  rcases source with _ | ⟨b0, _ | ⟨b1, _ | ⟨b2, _ | ⟨b3, rest⟩⟩⟩⟩
  · simp [parseBlocks] at h
  · simp [parseBlocks] at h
  · simp [parseBlocks] at h
  · simp [parseBlocks] at h
  · by_cases hm : (b0 % 256 == 0x66 && b1 % 256 == 0x4c && b2 % 256 == 0x61
        && b3 % 256 == 0x43) = true
    · simp only [parseBlocks, hm, if_true] at h
      exact parseBlocksLoop_bounds _ _ _ _ _ (by simp) h
    · simp only [parseBlocks, hm, Bool.false_eq_true, if_false] at h
      exact absurd h (by simp)

end SpotDl

namespace SpotDl

/-! ## The 2^24 length-truncation scenario

A cover of 2^24 bytes produces a picture block of 16777261 bytes whose
header records only 45; the lemmas below compute both applications of the
tagger on such an input.  The image bytes are kept abstract (any list `r`
with `r.length = 2^24`) so that no proof step ever traverses them. -/

/-- A cover image of exactly 2^24 bytes. -/
def bigCover : FlacPicture := ⟨List.replicate 16777216 7, ""⟩

/-- A minimal FLAC input: magic plus an empty, last STREAMINFO block. -/
def flacTiny : List ℕ := [0x66, 0x4c, 0x61, 0x43, 0x80, 0, 0, 0]

/-- The fixed part of the picture block built for a 2^24-byte cover with
empty MIME type (everything before the image bytes), 45 bytes. -/
def picPfx : List ℕ :=
  u32be 3 ++ u32be 0 ++ u32be 13 ++ encodeString "Cover (front)"
    ++ u32be 0 ++ u32be 0 ++ u32be 0 ++ u32be 0 ++ u32be 16777216

/-- Magic plus the two block headers of the first tagging output: the
picture block header records length 45 = 16777261 mod 2^24. -/
def out1Head : List ℕ := [0x66, 0x4c, 0x61, 0x43, 0, 0, 0, 0, 0x86, 0, 0, 45]

theorem picPfx_len : picPfx.length = 45 := by decide

theorem big_pic_gen (r : List ℕ) (hr : r.length = 16777216) :
    buildPictureBlock ⟨r, ""⟩ = picPfx ++ r := by
  show u32be 3 ++ u32be (encodeString "").length ++ encodeString ""
      ++ u32be (encodeString "Cover (front)").length ++ encodeString "Cover (front)"
      ++ u32be 0 ++ u32be 0 ++ u32be 0 ++ u32be 0 ++ u32be r.length ++ r = _
  rw [hr, show encodeString "" = [] from rfl,
    show (encodeString "Cover (front)").length = 13 from by decide]
  simp [picPfx, List.append_assoc]

theorem cover_present (r : List ℕ) (hne : r ≠ []) :
    hasCoverB (some ⟨r, ""⟩) = true := by
  show (!r.isEmpty) = true
  cases r with
  | nil => exact absurd rfl hne
  | cons a t => rfl

/-- First application of the tagger on `flacTiny` with a 2^24-byte cover:
all 16777261 picture-block bytes are written but its header says 45. -/
theorem out1_gen (r : List ℕ) (hr : r.length = 16777216) :
    applyFlacTags flacTiny none (some ⟨r, ""⟩) = (out1Head ++ picPfx) ++ r := by
  have hne : r ≠ [] := by
    intro h
    rw [h] at hr
    simp at hr
  have hcov := cover_present r hne
  have hpres : (hasMetadataB none || hasCoverB (some ⟨r, ""⟩)) = true := by
    rw [hcov]
    rfl
  have hparse : parseBlocks flacTiny = some ⟨[⟨0, []⟩], 8⟩ := by decide
  have hfind : (⟨[⟨0, []⟩], 8⟩ : ParsedBlocks).blocks.find? (fun b => b.type == 0)
      = some ⟨0, []⟩ := by decide
  have hlenpic : (buildPictureBlock ⟨r, ""⟩).length = 16777261 := by
    rw [big_pic_gen r hr]
    rw [List.length_append, picPfx_len, hr]
  simp only [applyFlacTags, hpres, if_true, hparse, hfind]
  rw [show newCommentBlocks none = [] from rfl]
  rw [show newPictureBlocks (some ⟨r, ""⟩)
      = [⟨6, buildPictureBlock ⟨r, ""⟩⟩] from by
    simp only [newPictureBlocks, hcov, if_true]]
  rw [show (⟨[⟨0, []⟩], 8⟩ : ParsedBlocks).blocks.filter
      (fun b => !(b.type == 0) && !(b.type == 4) && !(b.type == 6)) = [] from by decide]
  rw [show List.drop (⟨[⟨0, ([] : List ℕ)⟩], 8⟩ : ParsedBlocks).audioOffset flacTiny
      = [] from by decide]
  show flacMagic
      ++ (buildBlockHeader 0 (0 == 2 - 1) 0 ++ [] ++ (buildBlockHeader 6 (1 == 2 - 1)
          (buildPictureBlock ⟨r, ""⟩).length ++ buildPictureBlock ⟨r, ""⟩ ++ [])) ++ [] = _
  rw [hlenpic, big_pic_gen r hr]
  rw [show buildBlockHeader 0 (0 == 2 - 1) 0 = [0, 0, 0, 0] from by decide]
  rw [show buildBlockHeader 6 (1 == 2 - 1) 16777261 = [0x86, 0, 0, 45] from by decide]
  simp [flacMagic, out1Head, List.append_assoc]

/-- Re-parsing the first output: the truncated header makes the parser
read back a 45-byte picture block and treat the 2^24 image bytes as
audio. -/
theorem parse_out1_gen (r : List ℕ) (hr : r.length = 16777216) :
    parseBlocks ((out1Head ++ picPfx) ++ r) = some ⟨[⟨0, []⟩, ⟨6, picPfx⟩], 57⟩ := by
  have hsplit : (out1Head ++ picPfx) ++ r
      = flacMagic ++ ([0, 0, 0, 0, 0x86, 0, 0, 45] ++ (picPfx ++ r)) := by
    simp [out1Head, flacMagic, List.append_assoc]
  rw [hsplit, parseBlocks_magic]
  have hfuel : ([0, 0, 0, 0, 0x86, 0, 0, 45] ++ (picPfx ++ r)).length + 4 = 16777272 + 1 := by
    simp only [List.length_append, List.length_cons, List.length_nil, picPfx_len, hr]
  rw [hfuel]
  rw [show ([0, 0, 0, 0, 0x86, 0, 0, 45] ++ (picPfx ++ r))
      = 0 :: 0 :: 0 :: 0 :: (0x86 :: 0 :: 0 :: 45 :: (picPfx ++ r)) from by simp]
  rw [show (16777272 : ℕ) + 1 = 16777271 + 1 + 1 from rfl]
  simp only [parseBlocksLoop]
  rw [show readU32BE 0 0 0 0 = 0 from rfl]
  norm_num
  rw [show readU32BE 0x86 0 0 45 = 2248146989 from rfl]
  refine ⟨by rw [picPfx_len, hr]; norm_num, ?_⟩
  norm_num
  rw [List.take_left' picPfx_len]

/-- Second application of the tagger on the first output: the spilled
image bytes are treated as audio, so they are emitted again after a fresh
full-size picture block — the output grows by 2^24 bytes. -/
theorem out2_gen (r : List ℕ) (hr : r.length = 16777216) :
    applyFlacTags ((out1Head ++ picPfx) ++ r) none (some ⟨r, ""⟩)
      = ((out1Head ++ picPfx) ++ r) ++ r := by
  have hne : r ≠ [] := by
    intro h
    rw [h] at hr
    simp at hr
  have hcov := cover_present r hne
  have hpres : (hasMetadataB none || hasCoverB (some ⟨r, ""⟩)) = true := by
    rw [hcov]
    rfl
  have hlenpic : (buildPictureBlock ⟨r, ""⟩).length = 16777261 := by
    rw [big_pic_gen r hr]
    rw [List.length_append, picPfx_len, hr]
  have hdrop : List.drop 57 ((out1Head ++ picPfx) ++ r) = r :=
    List.drop_left' (by rw [List.length_append, picPfx_len]; rfl)
  simp only [applyFlacTags, hpres, if_true, parse_out1_gen r hr]
  rw [show (⟨[⟨0, []⟩, ⟨6, picPfx⟩], 57⟩ : ParsedBlocks).blocks.find?
      (fun b => b.type == 0) = some ⟨0, []⟩ from by rfl]
  rw [show newCommentBlocks none = [] from rfl]
  rw [show newPictureBlocks (some ⟨r, ""⟩)
      = [⟨6, buildPictureBlock ⟨r, ""⟩⟩] from by
    simp only [newPictureBlocks, hcov, if_true]]
  rw [show (⟨[⟨0, []⟩, ⟨6, picPfx⟩], 57⟩ : ParsedBlocks).blocks.filter
      (fun b => !(b.type == 0) && !(b.type == 4) && !(b.type == 6)) = [] from by rfl]
  show flacMagic
      ++ (buildBlockHeader 0 (0 == 2 - 1) 0 ++ [] ++ (buildBlockHeader 6 (1 == 2 - 1)
          (buildPictureBlock ⟨r, ""⟩).length ++ buildPictureBlock ⟨r, ""⟩ ++ []))
      ++ List.drop 57 ((out1Head ++ picPfx) ++ r) = _
  rw [hdrop, hlenpic, big_pic_gen r hr]
  rw [show buildBlockHeader 0 (0 == 2 - 1) 0 = [0, 0, 0, 0] from by decide]
  rw [show buildBlockHeader 6 (1 == 2 - 1) 16777261 = [0x86, 0, 0, 45] from by decide]
  simp [flacMagic, out1Head, List.append_assoc]

end SpotDl

namespace SpotDl

/-- C1: for a FLAC input accepted for tagging (magic valid, chain parsed to
completion, a unique STREAMINFO block present) with metadata and/or cover
present, `applyFlacTags` returns the 4-byte magic, then the serialized
chain STREAMINFO (payload byte-identical to the input's) → new
VORBIS_COMMENT block iff metadata present → new PICTURE block iff cover
present → every other original block except pre-existing comment/picture
blocks in original order, with the is-last bit on exactly the final block
(`serializeChainSpec`), then the input's trailing audio bytes. -/
theorem c1_rebuild_chain (source : List ℕ) (m : Option FlacTagMetadata)
    (c : Option FlacPicture) (pr : ParsedBlocks) (pre post : List FlacBlock) (si : FlacBlock)
    (hpres : (hasMetadataB m || hasCoverB c) = true)
    (hparse : parseBlocks source = some pr)
    (hblocks : pr.blocks = pre ++ si :: post)
    (hsi : si.type = 0)
    (hpre : ∀ b ∈ pre, b.type ≠ 0) (hpost : ∀ b ∈ post, b.type ≠ 0) :
    applyFlacTags source m c =
      flacMagic
        ++ serializeChainSpec
            (⟨0, si.data⟩ ::
              (newCommentBlocks m ++ newPictureBlocks c
                ++ (pre ++ post).filter (fun b => !(b.type == 4) && !(b.type == 6))))
        ++ source.drop pr.audioOffset := by
  simp only [applyFlacTags, hpres, if_true, hparse, hblocks]
  rw [find?_type0 pre post si hsi hpre]
  dsimp only
  rw [filter_other pre post si hsi hpre hpost]
  rw [writeBlocksAux_eq_serialize _ 0 _ (by simp)]

def mdW : FlacTagMetadata := ⟨some "T", none, none, none, none⟩

def src1 : List ℕ :=
  [0x66, 0x4c, 0x61, 0x43, 0, 0, 0, 4, 1, 2, 3, 4, 0x81, 0, 0, 2, 9, 9, 5, 5]

/-- C1 witness: the theorem applied to a concrete two-block FLAC input
with a title tag. -/
theorem c1_rebuild_chain_witness :
    parseBlocks src1 = some ⟨[⟨0, [1, 2, 3, 4]⟩, ⟨1, [9, 9]⟩], 18⟩
    ∧ applyFlacTags src1 (some mdW) none =
        flacMagic
          ++ serializeChainSpec
              (⟨0, [1, 2, 3, 4]⟩ ::
                (newCommentBlocks (some mdW) ++ newPictureBlocks none
                  ++ (([] ++ [⟨1, [9, 9]⟩] : List FlacBlock)).filter
                      (fun b => !(b.type == 4) && !(b.type == 6))))
          ++ src1.drop 18 :=
  ⟨by decide,
    c1_rebuild_chain src1 (some mdW) none
      (⟨[⟨0, [1, 2, 3, 4]⟩, ⟨1, [9, 9]⟩], 18⟩ : ParsedBlocks)
      [] [(⟨1, [9, 9]⟩ : FlacBlock)] (⟨0, [1, 2, 3, 4]⟩ : FlacBlock)
      (by decide) (by decide) rfl rfl (by simp) (by decide)⟩

/-- C3: whenever metadata is absent or has no non-empty field and the
cover is absent or empty, `applyFlacTags` returns the input itself,
regardless of whether it is valid FLAC. -/
theorem c3_identity_fast_path (x : List ℕ) (m : Option FlacTagMetadata)
    (c : Option FlacPicture)
    (hm : hasMetadataB m = false) (hc : hasCoverB c = false) :
    applyFlacTags x m c = x := by
  simp [applyFlacTags, hm, hc]

/-- C3 witness: a non-FLAC buffer with empty-string metadata and an
empty cover buffer is returned unchanged. -/
theorem c3_identity_fast_path_witness :
    applyFlacTags [1, 2, 3] (some ⟨some "", none, none, none, none⟩)
      (some ⟨[], "image/jpeg"⟩) = [1, 2, 3] :=
  c3_identity_fast_path _ _ _ (by decide) (by decide)

/-- C4: with metadata or cover present (indeed for any inputs),
`applyFlacTags` returns the input unchanged (and, being total, raises no
exception) when the "fLaC" magic is absent, when the block chain fails to
parse — in particular any block header claiming a payload longer than the
remaining bytes aborts the parse — or when no STREAMINFO block is among
the parsed blocks. -/
theorem c4_malformed_unchanged (source : List ℕ) (m : Option FlacTagMetadata)
    (c : Option FlacPicture) :
    (hasFlacMagic source = false → applyFlacTags source m c = source)
    ∧ (parseBlocks source = none → applyFlacTags source m c = source)
    ∧ (∀ pr, parseBlocks source = some pr →
        pr.blocks.find? (fun b => b.type == 0) = none → applyFlacTags source m c = source)
    ∧ (∀ f b0 b1 b2 b3 (tail : List ℕ) offset acc,
        tail.length < readU32BE b0 b1 b2 b3 % 16777216 →
        parseBlocksLoop (f + 1) (b0 :: b1 :: b2 :: b3 :: tail) offset acc = none) := by
  refine ⟨fun h => ?_, fun h => ?_, fun pr h hf => ?_,
    fun f b0 b1 b2 b3 tail offset acc h => ?_⟩
  · have := magic_false_parse_none source h
    by_cases hp : (hasMetadataB m || hasCoverB c) = true <;> simp [applyFlacTags, hp, this]
  · by_cases hp : (hasMetadataB m || hasCoverB c) = true <;> simp [applyFlacTags, hp, h]
  · by_cases hp : (hasMetadataB m || hasCoverB c) = true <;> simp [applyFlacTags, hp, h, hf]
  · simp only [parseBlocksLoop]
    rw [if_pos h]

def badMagic : List ℕ := [1, 2, 3, 4, 5]

def noStreamInfo : List ℕ := [0x66, 0x4c, 0x61, 0x43, 0x84, 0, 0, 0]

/-- C4 witness: a bad-magic buffer and a STREAMINFO-less buffer are
returned unchanged, and an overlong block header aborts the parse. -/
theorem c4_malformed_unchanged_witness :
    applyFlacTags badMagic (some mdW) none = badMagic
    ∧ applyFlacTags noStreamInfo (some mdW) none = noStreamInfo
    ∧ parseBlocksLoop 1 [0, 0, 1, 0] 4 [] = none :=
  ⟨(c4_malformed_unchanged badMagic (some mdW) none).1 (by decide),
    (c4_malformed_unchanged noStreamInfo (some mdW) none).2.2.1 ⟨[⟨4, []⟩], 8⟩
      (by decide) (by decide),
    (c4_malformed_unchanged [] none none).2.2.2 0 0 0 1 0 [] 4 [] (by decide)⟩

/-- C7: for metadata with at least one non-empty field, the
VORBIS_COMMENT payload is exactly a 4-byte little-endian vendor-string
length, the fixed vendor string, a 4-byte little-endian comment count,
then per comment a 4-byte little-endian length plus the UTF-8 bytes of
"KEY=value" in the fixed order TITLE, ARTIST, ALBUM, DATE, TRACKNUMBER;
absent or empty fields contribute no entry (the comment count is the
number of truthy fields). -/
theorem c7_vorbis_layout (m : FlacTagMetadata) (_h : hasMetadataB (some m) = true) :
    buildVorbisCommentBlock m =
      u32le (encodeString VENDOR_STRING).length ++ encodeString VENDOR_STRING
        ++ u32le (metadataComments m).length
        ++ ((metadataComments m).map
              (fun s => u32le (encodeString s).length ++ encodeString s)).flatten
    ∧ (metadataComments m).length =
        (if fieldTruthy m.title then 1 else 0) + (if fieldTruthy m.artist then 1 else 0)
          + (if fieldTruthy m.album then 1 else 0) + (if fieldTruthy m.date then 1 else 0)
          + (if fieldTruthy m.trackNumber then 1 else 0) := by
  constructor
  · simp [buildVorbisCommentBlock, List.map_map]
    rfl
  · simp [metadataComments, fieldComment_length]
    omega

/-- C7 witness: the layout at a concrete metadata value with one
field. -/
theorem c7_vorbis_layout_witness :
    hasMetadataB (some mdW) = true
    ∧ buildVorbisCommentBlock mdW =
        u32le (encodeString VENDOR_STRING).length ++ encodeString VENDOR_STRING
          ++ u32le (metadataComments mdW).length
          ++ ((metadataComments mdW).map
                (fun s => u32le (encodeString s).length ++ encodeString s)).flatten :=
  ⟨by decide, (c7_vorbis_layout mdW (by decide)).1⟩

/-- C8 counterexample: the claim "applying the tagger twice is
byte-identical to applying once" fails at the concrete input `flacTiny`
with a 2^24-byte cover: the picture block's header records its length
mod 2^24, re-parsing reads back a 45-byte block, and the second
application emits the 2^24 spilled image bytes twice. -/
theorem c8_idempotence_counterexample :
    applyFlacTags (applyFlacTags flacTiny none (some bigCover)) none (some bigCover)
      ≠ applyFlacTags flacTiny none (some bigCover) := by
  have hr : (List.replicate 16777216 7).length = 16777216 := List.length_replicate _ _
  show applyFlacTags
      (applyFlacTags flacTiny none (some ⟨List.replicate 16777216 7, ""⟩))
      none (some ⟨List.replicate 16777216 7, ""⟩)
    ≠ applyFlacTags flacTiny none (some ⟨List.replicate 16777216 7, ""⟩)
  rw [out1_gen _ hr, out2_gen _ hr]
  intro heq
  have h := congrArg List.length heq
  simp only [List.length_append, hr, picPfx_len] at h
  omega

end SpotDl

namespace SpotDl

/-- C8 amended: applying the tagger twice with the same metadata and
cover is byte-identical to applying once, provided each freshly built
block (vorbis comment, picture) is shorter than 2^24 bytes — parsed
blocks always are, so only the new blocks need the bound.  The
unamended claim fails for covers of 16 MiB and up, see the
counterexample. -/
theorem c8_idempotent_amended (source : List ℕ) (m : Option FlacTagMetadata) (c : Option FlacPicture)
    (hpres : (hasMetadataB m || hasCoverB c) = true)
    (hv : ∀ md, m = some md → (buildVorbisCommentBlock md).length < 16777216)
    (hp : ∀ pc, c = some pc → (buildPictureBlock pc).length < 16777216) :
    applyFlacTags (applyFlacTags source m c) m c = applyFlacTags source m c := by
  cases hparse : parseBlocks source with
  | none =>
    have h1 : applyFlacTags source m c = source := by simp [applyFlacTags, hpres, hparse]
    rw [h1]; exact h1
  | some pr =>
    cases hfind : pr.blocks.find? (fun b => b.type == 0) with
    | none =>
      have h1 : applyFlacTags source m c = source := by
        simp [applyFlacTags, hpres, hparse, hfind]
      rw [h1]; exact h1
    | some si =>
      have hsimem : si ∈ pr.blocks := List.mem_of_find?_eq_some hfind
      have hprb := parseBlocks_bounds source pr hparse
      set otherBlocks :=
        pr.blocks.filter (fun b => !(b.type == 0) && !(b.type == 4) && !(b.type == 6)) with hob
      set nb : List FlacBlock :=
        ⟨0, si.data⟩ :: (newCommentBlocks m ++ newPictureBlocks c ++ otherBlocks) with hnb
      have hout1 : applyFlacTags source m c
          = flacMagic ++ writeBlocksAux nb 0 nb.length ++ source.drop pr.audioOffset := by
        simp only [applyFlacTags, hpres, if_true, hparse, hfind]
      have hnbbounds : ∀ b ∈ nb, b.type < 128 ∧ b.data.length < 16777216 := by
        intro b hb
        rw [hnb] at hb
        simp only [List.mem_cons, List.mem_append] at hb
        rcases hb with hb | ⟨⟨hb | hb⟩ | hb⟩
        · rw [hb]
          exact ⟨by norm_num, (hprb si hsimem).2⟩
        · cases m with
          | none => simp [newCommentBlocks] at hb
          | some md =>
            by_cases hmd : hasMetadataB (some md) = true
            · simp only [newCommentBlocks, hmd, if_true, List.mem_singleton] at hb
              rw [hb]
              exact ⟨by norm_num, hv md rfl⟩
            · simp [newCommentBlocks, hmd] at hb
        · cases c with
          | none => simp [newPictureBlocks] at hb
          | some pc =>
            by_cases hpc : hasCoverB (some pc) = true
            · simp only [newPictureBlocks, hpc, if_true, List.mem_singleton] at hb
              rw [hb]
              exact ⟨by norm_num, hp pc rfl⟩
            · simp [newPictureBlocks, hpc] at hb
        · exact hprb b (List.mem_of_mem_filter hb)
      have hser : writeBlocksAux nb 0 nb.length = serializeChainSpec nb :=
        writeBlocksAux_eq_serialize nb 0 _ (by simp)
      rw [hser] at hout1
      have hparse2 : parseBlocks (flacMagic ++ serializeChainSpec nb ++ source.drop pr.audioOffset)
          = some ⟨nb, 4 + (serializeChainSpec nb).length⟩ := by
        have hassoc : flacMagic ++ serializeChainSpec nb ++ source.drop pr.audioOffset
            = flacMagic ++ (serializeChainSpec nb ++ source.drop pr.audioOffset) := by
          simp [List.append_assoc]
        rw [hassoc, parseBlocks_magic]
        rw [parseLoop_serialize nb (source.drop pr.audioOffset)
          ((serializeChainSpec nb ++ source.drop pr.audioOffset).length + 4) 4 []
          (by rw [hnb]; simp)
          (by
            have h1 := serialize_length_ge nb
            simp only [List.length_append]
            omega)
          hnbbounds]
        simp
      have hfind2 : nb.find? (fun b => b.type == 0) = some ⟨0, si.data⟩ := by
        rw [hnb]
        simp [List.find?_cons]
      have hfc : (newCommentBlocks m).filter
          (fun b => !(b.type == 0) && !(b.type == 4) && !(b.type == 6)) = [] := by
        cases m with
        | none => rfl
        | some md =>
          by_cases hmd : hasMetadataB (some md) = true
          · simp [newCommentBlocks, hmd]
          · simp [newCommentBlocks, hmd]
      have hfp : (newPictureBlocks c).filter
          (fun b => !(b.type == 0) && !(b.type == 4) && !(b.type == 6)) = [] := by
        cases c with
        | none => rfl
        | some pc =>
          by_cases hpc : hasCoverB (some pc) = true
          · simp [newPictureBlocks, hpc]
          · simp [newPictureBlocks, hpc]
      have hfo : otherBlocks.filter
          (fun b => !(b.type == 0) && !(b.type == 4) && !(b.type == 6)) = otherBlocks := by
        apply List.filter_eq_self.mpr
        intro b hb
        rw [hob] at hb
        exact (List.mem_filter.mp hb).2
      have hfilter2 :
          nb.filter (fun b => !(b.type == 0) && !(b.type == 4) && !(b.type == 6))
            = otherBlocks := by
        rw [hnb]
        simp only [List.filter_cons, List.filter_append, hfc, hfp, hfo]
        simp
      have haudio2 : List.drop (4 + (serializeChainSpec nb).length)
          (flacMagic ++ serializeChainSpec nb ++ source.drop pr.audioOffset)
          = source.drop pr.audioOffset := by
        apply List.drop_left'
        simp [flacMagic]
        omega
      have hstep : applyFlacTags
          (flacMagic ++ serializeChainSpec nb ++ source.drop pr.audioOffset) m c
          = flacMagic ++ serializeChainSpec nb ++ source.drop pr.audioOffset := by
        simp only [applyFlacTags, hpres, if_true, hparse2, hfind2]
        rw [hfilter2]
        rw [← hnb]
        rw [hser]
        rw [haudio2]
      rw [hout1]
      rw [hstep]

end SpotDl

namespace SpotDl

/-- C8 amended witness: idempotence at a concrete small input. -/
theorem c8_idempotent_amended_witness :
    applyFlacTags (applyFlacTags flacTiny (some mdW) none) (some mdW) none
      = applyFlacTags flacTiny (some mdW) none :=
  c8_idempotent_amended flacTiny (some mdW) none (by decide)
    (fun md h => by cases h; decide)
    (fun pc h => by cases h)

/-- C10: the serialized block header stores the payload length as
`length mod 2^24` (so it is exact for payloads shorter than 2^24 bytes),
while all payload bytes are still written: tagging `flacTiny` with the
2^24-byte cover writes all 16777261 picture bytes but re-parsing the
output yields a 45-byte picture block, which differs from the written
one — the output no longer describes its own bytes. -/
theorem c10_header_truncation :
    (∀ (ty : ℕ) (last : Bool) (l : ℕ),
        buildBlockHeader ty last l = buildBlockHeader ty last (l % 16777216))
    ∧ (∀ (ty : ℕ) (last : Bool) (l : ℕ),
        (buildBlockHeader ty last l).getD 1 0 * 65536
          + (buildBlockHeader ty last l).getD 2 0 * 256
          + (buildBlockHeader ty last l).getD 3 0 = l % 16777216)
    ∧ (applyFlacTags flacTiny none (some bigCover)).length = 16777273
    ∧ parseBlocks (applyFlacTags flacTiny none (some bigCover))
        = some ⟨[⟨0, []⟩, ⟨6, picPfx⟩], 57⟩
    ∧ picPfx ≠ buildPictureBlock bigCover := by
  have hr : (List.replicate 16777216 7).length = 16777216 := List.length_replicate _ _
  refine ⟨?_, ?_, ?_, ?_, ?_⟩
  · intro ty last l
    unfold buildBlockHeader
    congr 1
    cases last <;> simp
  · intro ty last l
    cases last <;> simp [buildBlockHeader, u32be] <;> omega
  · show (applyFlacTags flacTiny none (some ⟨List.replicate 16777216 7, ""⟩)).length = _
    rw [out1_gen _ hr]
    simp only [List.length_append, hr, picPfx_len]
    rfl
  · show parseBlocks (applyFlacTags flacTiny none (some ⟨List.replicate 16777216 7, ""⟩)) = _
    rw [out1_gen _ hr]
    exact parse_out1_gen _ hr
  · intro h
    have hlen := congrArg List.length h
    rw [picPfx_len] at hlen
    have hlenpic : (buildPictureBlock ⟨List.replicate 16777216 7, ""⟩).length = 16777261 := by
      rw [big_pic_gen _ hr, List.length_append, picPfx_len, hr]
    rw [show buildPictureBlock bigCover
        = buildPictureBlock ⟨List.replicate 16777216 7, ""⟩ from rfl, hlenpic] at hlen
    omega

end SpotDl

namespace SpotDl

theorem jsVal_nonneg (n : JsNum) (h : jsNonneg n = true) : 0 ≤ jsVal n := by
  simp only [jsNonneg, decide_eq_true_eq] at h
  unfold jsVal
  positivity

theorem jsVal_addOne (n : JsNum) : jsVal (jsAddOne n) = jsVal n + 1 := by
  unfold jsVal jsAddOne
  have h10 : ((10 : ℚ) ^ n.shift) ≠ 0 := by positivity
  push_cast
  field_simp

theorem jsAddNat_zero (n : JsNum) : jsAddNat n 0 = n := by
  cases n
  simp [jsAddNat]

theorem jsAddNat_succ (n : JsNum) (k : ℕ) :
    jsAddNat (jsAddOne n) k = jsAddNat n (k + 1) := by
  cases n
  simp only [jsAddNat, jsAddOne, JsNum.mk.injEq, and_true]
  push_cast
  ring

theorem jsCeilZ_addOne (n : JsNum) : jsCeilZ (jsAddOne n) = jsCeilZ n + 1 := by
  rw [jsCeilZ_eq_ceil, jsCeilZ_eq_ceil, jsVal_addOne]
  exact_mod_cast Int.ceil_add_one (jsVal n)

theorem jsCeilZ_nonneg (n : JsNum) (h : jsNonneg n = true) : 0 ≤ jsCeilZ n := by
  rw [jsCeilZ_eq_ceil]
  exact Int.ceil_nonneg (jsVal_nonneg n h)

theorem jsLt_ofNat_iff (i : ℕ) (rep : JsNum) :
    (jsLt (jsOfNat i) rep = true) ↔ ((i : ℤ) < jsCeilZ rep) := by
  rw [jsCeilZ_eq_ceil, Int.lt_ceil]
  unfold jsLt jsOfNat jsVal
  simp only [pow_zero, mul_one, decide_eq_true_eq]
  rw [lt_div_iff₀ (by positivity : (0 : ℚ) < 10 ^ rep.shift)]
  constructor <;> intro h <;> exact_mod_cast h

theorem entryLoop_spec (media : String) (rep : JsNum) :
    ∀ (f j : ℕ) (cur : JsNum), (jsCeilZ rep).toNat ≤ j + f →
      entryLoop media rep f j cur
        = ((List.range ((jsCeilZ rep).toNat - j)).map
              (fun k => replaceFirstStr media "$Number$" (jsNumToString (jsAddNat cur k))),
           jsAddNat cur ((jsCeilZ rep).toNat - j)) := by
  intro f
  induction f with
  | zero =>
    intro j cur hf
    have h0 : (jsCeilZ rep).toNat - j = 0 := by omega
    rw [h0]
    simp [entryLoop, jsAddNat_zero]
  | succ f ih =>
    intro j cur hf
    by_cases hg : jsLt (jsOfNat j) rep = true
    · have hjN : j < (jsCeilZ rep).toNat := by
        have := (jsLt_ofNat_iff j rep).mp hg
        omega
      rw [show entryLoop media rep (f + 1) j cur
          = (replaceFirstStr media "$Number$" (jsNumToString cur)
              :: (entryLoop media rep f (j + 1) (jsAddOne cur)).1,
             (entryLoop media rep f (j + 1) (jsAddOne cur)).2) from by
        simp [entryLoop, hg]]
      rw [ih (j + 1) (jsAddOne cur) (by omega)]
      have hsplit : (jsCeilZ rep).toNat - j = ((jsCeilZ rep).toNat - (j + 1)) + 1 := by omega
      rw [hsplit, List.range_succ_eq_map]
      simp only [List.map_cons, List.map_map, Prod.mk.injEq]
      constructor
      · rw [jsAddNat_zero]
        congr 1
        apply List.map_congr_left
        intro k _
        simp only [Function.comp_apply, Nat.succ_eq_add_one]
        rw [jsAddNat_succ]
      · rw [jsAddNat_succ]
    · have hjN : (jsCeilZ rep).toNat ≤ j := by
        rw [jsLt_ofNat_iff] at hg
        omega
      have h0 : (jsCeilZ rep).toNat - j = 0 := by omega
      rw [h0]
      simp [entryLoop, hg, jsAddNat_zero]

end SpotDl

namespace SpotDl

/-- The number of URLs one timeline entry contributes (the amended count):
`⌈r⌉ + 1` for `r >= 0` (which is `r + 1` for integral `r`), else 1. -/
def repeatCountSpec (r : JsNum) : ℕ :=
  if jsNonneg r then (jsCeilZ r).toNat + 1 else 1

/-- Total number of segment URLs across the timeline. -/
def totalCountSpec (tl : List TimelineEntry) : ℕ :=
  (tl.map (fun e => repeatCountSpec e.r)).sum

theorem repeatCount_eq (r : JsNum) :
    (jsCeilZ (if jsNonneg r then jsAddOne r else jsOne)).toNat = repeatCountSpec r := by
  unfold repeatCountSpec
  by_cases h : jsNonneg r = true
  · rw [if_pos h, if_pos h, jsCeilZ_addOne]
    have := jsCeilZ_nonneg r h
    omega
  · rw [if_neg h, if_neg h]
    rfl

theorem jsAddNat_addNat (cur : JsNum) (a b : ℕ) :
    jsAddNat (jsAddNat cur a) b = jsAddNat cur (a + b) := by
  cases cur
  simp only [jsAddNat, JsNum.mk.injEq, and_true]
  push_cast
  ring

theorem timelineLoop_spec (media : String) :
    ∀ (tl : List TimelineEntry) (cur : JsNum),
      timelineLoop media tl cur
        = ((List.range (totalCountSpec tl)).map
              (fun k => replaceFirstStr media "$Number$" (jsNumToString (jsAddNat cur k))),
           jsAddNat cur (totalCountSpec tl)) := by
  intro tl
  induction tl with
  | nil =>
    intro cur
    simp [timelineLoop, totalCountSpec, jsAddNat_zero]
  | cons e rest ih =>
    intro cur
    have htot : totalCountSpec (e :: rest) = repeatCountSpec e.r + totalCountSpec rest := by
      simp [totalCountSpec]
    rw [show timelineLoop media (e :: rest) cur
        = ((entryLoop media (if jsNonneg e.r then jsAddOne e.r else jsOne)
              ((jsCeilZ (if jsNonneg e.r then jsAddOne e.r else jsOne)).toNat + 1) 0 cur).1
            ++ (timelineLoop media rest
                (entryLoop media (if jsNonneg e.r then jsAddOne e.r else jsOne)
                  ((jsCeilZ (if jsNonneg e.r then jsAddOne e.r else jsOne)).toNat + 1) 0 cur).2).1,
           (timelineLoop media rest
                (entryLoop media (if jsNonneg e.r then jsAddOne e.r else jsOne)
                  ((jsCeilZ (if jsNonneg e.r then jsAddOne e.r else jsOne)).toNat + 1) 0 cur).2).2)
        from rfl]
    rw [entryLoop_spec media _ _ 0 cur (by omega)]
    simp only [Nat.sub_zero, repeatCount_eq]
    rw [ih]
    rw [htot]
    simp only [Prod.mk.injEq]
    constructor
    · rw [List.range_add, List.map_append, List.map_map]
      congr 1
      apply List.map_congr_left
      intro k _
      simp only [Function.comp_apply]
      rw [jsAddNat_addNat]
    · rw [jsAddNat_addNat]

end SpotDl

namespace SpotDl

/-- C2 amended: for every template whose media contains the `$Number$`
token, `buildSegmentUrls` succeeds, keeps the initialization URL, and
produces the segments in timeline order where the i-th URL (0-based) is
`media` with the first `$Number$` replaced by `String(startNumber + i)`;
the list length is the sum over entries of `⌈r⌉ + 1` when `r >= 0`
(which is `r + 1` for integral `r`, as the claim states) and 1 for
negative `r` (`totalCountSpec`).  The claim's own `r + 1` count fails for
fractional `r`, see the counterexample.  The second conjunct is the
claim's concrete example. -/
theorem c2_segment_expansion (t : SegmentTemplate)
    (h : includesStr t.media "$Number$" = true) :
    buildSegmentUrls t
      = some ⟨t.initialization,
          (List.range (totalCountSpec t.timeline)).map
            (fun i => replaceFirstStr t.media "$Number$"
                (jsNumToString (jsAddNat t.startNumber i)))⟩
    ∧ buildSegmentUrls
        ⟨"init.mp4", "seg-$Number$.m4s", ⟨1, 0⟩,
          [⟨⟨1000, 0⟩, ⟨2, 0⟩⟩, ⟨⟨1000, 0⟩, ⟨0, 0⟩⟩]⟩
        = some ⟨"init.mp4", ["seg-1.m4s", "seg-2.m4s", "seg-3.m4s", "seg-4.m4s"]⟩ := by
  constructor
  · simp only [buildSegmentUrls, h, if_true]
    rw [timelineLoop_spec t.media t.timeline t.startNumber]
  · decide

def tFrac : SegmentTemplate := ⟨"i", "s-$Number$", ⟨1, 0⟩, [⟨⟨1000, 0⟩, ⟨25, 1⟩⟩]⟩

/-- C2 counterexample: the claim's length formula `Σ (r+1 if r ≥ 0 else 1)`
fails at a parsed timeline entry with `r = 2.5` (attribute value "2.5"
passes the finiteness filter): the code produces 4 URLs, but the claimed
sum is 2.5 + 1 = 3.5 ≠ 4. -/
theorem c2_segment_expansion_counterexample :
    (buildSegmentUrls tFrac).map (fun su => su.segments.length) = some 4
    ∧ jsVal ⟨25, 1⟩ = 5 / 2
    ∧ ¬ ((4 : ℚ) = 5 / 2 + 1) := by
  refine ⟨by decide, ?_, by norm_num⟩
  unfold jsVal
  norm_num

/-- C2 witness: the amended theorem applied to the claim's example
template. -/
theorem c2_segment_expansion_witness :
    buildSegmentUrls
        ⟨"init.mp4", "seg-$Number$.m4s", ⟨1, 0⟩,
          [⟨⟨1000, 0⟩, ⟨2, 0⟩⟩, ⟨⟨1000, 0⟩, ⟨0, 0⟩⟩]⟩
      = some ⟨"init.mp4",
          (List.range (totalCountSpec [⟨⟨1000, 0⟩, ⟨2, 0⟩⟩, ⟨⟨1000, 0⟩, ⟨0, 0⟩⟩])).map
            (fun i => replaceFirstStr "seg-$Number$.m4s" "$Number$"
                (jsNumToString (jsAddNat ⟨1, 0⟩ i)))⟩ :=
  (c2_segment_expansion
    ⟨"init.mp4", "seg-$Number$.m4s", ⟨1, 0⟩,
      [⟨⟨1000, 0⟩, ⟨2, 0⟩⟩, ⟨⟨1000, 0⟩, ⟨0, 0⟩⟩]⟩ (by decide)).1

end SpotDl

namespace SpotDl

/-- The `initialization` attribute of the first SegmentTemplate tag. -/
def mpdInitAttr (s : String) : Option String :=
  (templateGroup s.data).bind (fun g => recordGet (parseAttributes g) "initialization")

/-- The `media` attribute of the first SegmentTemplate tag. -/
def mpdMediaAttr (s : String) : Option String :=
  (templateGroup s.data).bind (fun g => recordGet (parseAttributes g) "media")

/-- The `startNumber` attribute of the first SegmentTemplate tag. -/
def mpdStartNumberAttr (s : String) : Option String :=
  (templateGroup s.data).bind (fun g => recordGet (parseAttributes g) "startNumber")

/-- Whether the `media` attribute exists and contains `$Number$`. -/
def mpdMediaHasToken (s : String) : Bool :=
  match mpdMediaAttr s with
  | some m => includesStr m "$Number$"
  | none => false

/-- The filtered timeline entries of the first SegmentTimeline block. -/
def mpdTimelineEntries (s : String) : List TimelineEntry :=
  match timelineGroup s.data with
  | some tg => buildTimeline (sMatches tg)
  | none => []

/-- The effective start number: the `startNumber` attribute when it parses
to a positive finite number, else 1. -/
def mpdEffStart (s : String) : JsNum :=
  match jsNumber ((mpdStartNumberAttr s).getD "1") with
  | some q => if jsPos q then q else jsOne
  | none => jsOne

theorem totalCount_pos (tl : List TimelineEntry) (h : tl ≠ []) : 0 < totalCountSpec tl := by
  cases tl with
  | nil => exact absurd rfl h
  | cons e rest =>
    have h1 : 1 ≤ repeatCountSpec e.r := by
      unfold repeatCountSpec
      split <;> omega
    simp only [totalCountSpec, List.map_cons, List.sum_cons]
    omega

/-- Shape of a successful `parseMpdSegmentUrls`: the segment list is the
numbered expansion of the media template starting at the effective start
number, and the filtered timeline is non-empty. -/
theorem parseMpd_segments (s : String) (su : SegmentUrls)
    (h : parseMpdSegmentUrls s = some su) :
    su.segments = (List.range (totalCountSpec (mpdTimelineEntries s))).map
        (fun i => replaceFirstStr ((mpdMediaAttr s).getD "") "$Number$"
          (jsNumToString (jsAddNat (mpdEffStart s) i)))
    ∧ mpdTimelineEntries s ≠ [] := by
  unfold parseMpdSegmentUrls at h
  cases hg : templateGroup s.data with
  | none => rw [hg] at h; cases h
  | some g =>
    rw [hg] at h
    dsimp only at h
    by_cases hge : g.isEmpty = true
    · rw [if_pos hge] at h; cases h
    · rw [if_neg hge] at h
      by_cases hguard : ((recordGet (parseAttributes g) "initialization").getD "" == ""
          || (recordGet (parseAttributes g) "media").getD "" == "") = true
      · rw [if_pos hguard] at h; cases h
      · rw [if_neg hguard] at h
        cases htl : timelineGroup s.data with
        | none => rw [htl] at h; cases h
        | some tg =>
          rw [htl] at h
          dsimp only at h
          by_cases htge : tg.isEmpty = true
          · rw [if_pos htge] at h; cases h
          · rw [if_neg htge] at h
            by_cases hemp : (buildTimeline (sMatches tg)).isEmpty = true
            · rw [if_pos hemp] at h; cases h
            · rw [if_neg hemp] at h
              unfold buildSegmentUrls at h
              by_cases hinc : includesStr ((recordGet (parseAttributes g) "media").getD "")
                  "$Number$" = true
              · rw [if_pos hinc] at h
                injection h with h
                subst h
                constructor
                · show (timelineLoop _ _ _).1 = _
                  rw [timelineLoop_spec]
                  have hm : mpdMediaAttr s = recordGet (parseAttributes g) "media" := by
                    unfold mpdMediaAttr
                    rw [hg]
                    rfl
                  have hte : mpdTimelineEntries s = buildTimeline (sMatches tg) := by
                    unfold mpdTimelineEntries
                    rw [htl]
                  have hes : mpdEffStart s
                      = (match jsNumber ((recordGet (parseAttributes g) "startNumber").getD "1") with
                         | some q => if jsPos q then q else jsOne
                         | none => jsOne) := by
                    unfold mpdEffStart mpdStartNumberAttr
                    rw [hg]
                    rfl
                  rw [hm, hte, hes]
                · intro hc
                  unfold mpdTimelineEntries at hc
                  rw [htl] at hc
                  dsimp only at hc
                  rw [hc] at hemp
                  exact hemp rfl
              · rw [if_neg hinc] at h; cases h

end SpotDl

namespace SpotDl

theorem head?_range_map (n : ℕ) (hn : 0 < n) (F : ℕ → String) :
    ((List.range n).map F).head? = some (F 0) := by
  obtain ⟨k, rfl⟩ : ∃ k, n = k + 1 := ⟨n - 1, by omega⟩
  rw [List.range_succ_eq_map]
  rfl

/-- C9 amended: when parsing succeeds, segment numbering starts at the
`startNumber` attribute's value whenever it parses to a positive finite
number — integrality is not checked, contrary to the claim — and at the
default 1 when the attribute is absent, non-numeric (`NaN`), zero or
negative. -/
theorem c9_start_number (s : String) (su : SegmentUrls)
    (h : parseMpdSegmentUrls s = some su) :
    (∀ a q, mpdStartNumberAttr s = some a → jsNumber a = some q → jsPos q = true →
        su.segments.head? = some (replaceFirstStr ((mpdMediaAttr s).getD "") "$Number$"
          (jsNumToString q)))
    ∧ (mpdStartNumberAttr s = none →
        su.segments.head? = some (replaceFirstStr ((mpdMediaAttr s).getD "") "$Number$" "1"))
    ∧ (∀ a, mpdStartNumberAttr s = some a → jsNumber a = none →
        su.segments.head? = some (replaceFirstStr ((mpdMediaAttr s).getD "") "$Number$" "1"))
    ∧ (∀ a q, mpdStartNumberAttr s = some a → jsNumber a = some q → jsPos q = false →
        su.segments.head? = some (replaceFirstStr ((mpdMediaAttr s).getD "") "$Number$" "1")) := by
  obtain ⟨hseg, hne⟩ := parseMpd_segments s su h
  have hpos := totalCount_pos _ hne
  have hhead : su.segments.head? = some (replaceFirstStr ((mpdMediaAttr s).getD "")
      "$Number$" (jsNumToString (mpdEffStart s))) := by
    rw [hseg, head?_range_map _ hpos]
    rw [jsAddNat_zero]
  have hone : jsNumToString jsOne = "1" := by decide
  refine ⟨?_, ?_, ?_, ?_⟩
  · intro a q ha hq hp
    have he : mpdEffStart s = q := by
      unfold mpdEffStart
      rw [ha]
      show (match jsNumber a with
            | some q => if jsPos q then q else jsOne
            | none => jsOne) = q
      rw [hq]
      simp [hp]
    rw [hhead, he]
  · intro ha
    have he : mpdEffStart s = jsOne := by
      unfold mpdEffStart
      rw [ha]
      decide
    rw [hhead, he, hone]
  · intro a ha hq
    have he : mpdEffStart s = jsOne := by
      unfold mpdEffStart
      rw [ha]
      show (match jsNumber a with
            | some q => if jsPos q then q else jsOne
            | none => jsOne) = jsOne
      rw [hq]
    rw [hhead, he, hone]
  · intro a q ha hq hp
    have he : mpdEffStart s = jsOne := by
      unfold mpdEffStart
      rw [ha]
      show (match jsNumber a with
            | some q => if jsPos q then q else jsOne
            | none => jsOne) = jsOne
      rw [hq]
      simp [hp]
    rw [hhead, he, hone]

def mpd9 : String :=
  "<SegmentTemplate initialization=\"i\" media=\"s$Number$\" startNumber=\"2.5\"><SegmentTimeline><S d=\"1\"/></SegmentTimeline></SegmentTemplate>"

set_option maxRecDepth 40000 in
/-- C9 counterexample: `startNumber="2.5"` is positive and finite but not
an integer; the claim says the default 1 must be used (first URL "s1"),
yet the code starts numbering at 2.5 (first URL "s2.5"). -/
theorem c9_start_number_counterexample :
    parseMpdSegmentUrls mpd9 = some ⟨"i", ["s2.5"]⟩
    ∧ mpdStartNumberAttr mpd9 = some "2.5"
    ∧ ("s2.5" : String) ≠ "s1" :=
  ⟨by decide, by decide, by decide⟩

def mpd9w : String :=
  "<SegmentTemplate initialization=\"i\" media=\"s$Number$\" startNumber=\"3\"><SegmentTimeline><S d=\"1\"/></SegmentTimeline></SegmentTemplate>"

set_option maxRecDepth 40000 in
/-- C9 witness: the amended theorem applied to a concrete manifest with
`startNumber="3"`. -/
theorem c9_start_number_witness :
    parseMpdSegmentUrls mpd9w = some ⟨"i", ["s3"]⟩
    ∧ (⟨"i", ["s3"]⟩ : SegmentUrls).segments.head?
        = some (replaceFirstStr ((mpdMediaAttr mpd9w).getD "") "$Number$"
            (jsNumToString ⟨3, 0⟩)) :=
  ⟨by decide,
    (c9_start_number mpd9w ⟨"i", ["s3"]⟩ (by decide)).1 "3" ⟨3, 0⟩ (by decide) (by decide)
      (by decide)⟩

end SpotDl

namespace SpotDl

/-- C6 amended: `parseMpdSegmentUrls` returns `none` exactly when no
`<SegmentTemplate …>` tag matches, the `initialization` or `media`
attribute is absent **or empty** (the amendment: JS falsiness also rejects
present-but-empty values), `media` lacks the `$Number$` token, no
`<SegmentTimeline>…</SegmentTimeline>` block matches, or no timeline entry
survives the positive-finite-duration filter. -/
theorem c6_null_conditions (s : String) :
    parseMpdSegmentUrls s = none ↔
      templateGroup s.data = none
      ∨ mpdInitAttr s = none ∨ mpdInitAttr s = some ""
      ∨ mpdMediaAttr s = none ∨ mpdMediaAttr s = some ""
      ∨ mpdMediaHasToken s = false
      ∨ timelineGroup s.data = none
      ∨ mpdTimelineEntries s = [] := by
  unfold parseMpdSegmentUrls
  cases hg : templateGroup s.data with
  | none =>
    simp only [true_or]
  | some g =>
    dsimp only
    have hInit : mpdInitAttr s = recordGet (parseAttributes g) "initialization" := by
      unfold mpdInitAttr
      rw [hg]
      rfl
    have hMedia : mpdMediaAttr s = recordGet (parseAttributes g) "media" := by
      unfold mpdMediaAttr
      rw [hg]
      rfl
    by_cases hge : g.isEmpty = true
    · rw [if_pos hge]
      have hgnil : g = [] := by
        cases g with
        | nil => rfl
        | cons a t => simp at hge
      apply iff_of_true rfl
      apply Or.inr (Or.inl ?_)
      rw [hInit, hgnil]
      decide
    · rw [if_neg hge]
      by_cases hguard : ((recordGet (parseAttributes g) "initialization").getD "" == ""
          || (recordGet (parseAttributes g) "media").getD "" == "") = true
      · rw [if_pos hguard]
        apply iff_of_true rfl
        rcases Bool.or_eq_true_iff.mp hguard with hi | hm
        · cases hri : recordGet (parseAttributes g) "initialization" with
          | none => exact Or.inr (Or.inl (by rw [hInit, hri]))
          | some i =>
            rw [hri] at hi
            have : i = "" := by
              simpa using hi
            exact Or.inr (Or.inr (Or.inl (by rw [hInit, hri, this])))
        · cases hrm : recordGet (parseAttributes g) "media" with
          | none => exact Or.inr (Or.inr (Or.inr (Or.inl (by rw [hMedia, hrm]))))
          | some mv =>
            rw [hrm] at hm
            have : mv = "" := by
              simpa using hm
            exact Or.inr (Or.inr (Or.inr (Or.inr (Or.inl (by rw [hMedia, hrm, this])))))
      · rw [if_neg hguard]
        have hnots := Bool.or_eq_false_iff.mp (Bool.not_eq_true _ |>.mp hguard)
        obtain ⟨hi, hm⟩ := hnots
        obtain ⟨iv, hiv, hivne⟩ : ∃ iv, recordGet (parseAttributes g) "initialization" = some iv
            ∧ iv ≠ "" := by
          cases hri : recordGet (parseAttributes g) "initialization" with
          | none => rw [hri] at hi; simp at hi
          | some i =>
            rw [hri] at hi
            exact ⟨i, rfl, by simpa using hi⟩
        obtain ⟨mv, hmv, hmvne⟩ : ∃ mv, recordGet (parseAttributes g) "media" = some mv
            ∧ mv ≠ "" := by
          cases hrm : recordGet (parseAttributes g) "media" with
          | none => rw [hrm] at hm; simp at hm
          | some m =>
            rw [hrm] at hm
            exact ⟨m, rfl, by simpa using hm⟩
        have hTok : mpdMediaHasToken s = includesStr mv "$Number$" := by
          unfold mpdMediaHasToken
          rw [hMedia, hmv]
        cases htl : timelineGroup s.data with
        | none =>
          apply iff_of_true rfl
          exact Or.inr (Or.inr (Or.inr (Or.inr (Or.inr (Or.inr (Or.inl rfl))))))
        | some tg =>
          dsimp only
          have hTe : mpdTimelineEntries s = buildTimeline (sMatches tg) := by
            unfold mpdTimelineEntries
            rw [htl]
          by_cases htge : tg.isEmpty = true
          · rw [if_pos htge]
            have htgnil : tg = [] := by
              cases tg with
              | nil => rfl
              | cons a t => simp at htge
            apply iff_of_true rfl
            refine Or.inr (Or.inr (Or.inr (Or.inr (Or.inr (Or.inr (Or.inr ?_))))))
            rw [hTe, htgnil]
            decide
          · rw [if_neg htge]
            by_cases hemp : (buildTimeline (sMatches tg)).isEmpty = true
            · rw [if_pos hemp]
              apply iff_of_true rfl
              refine Or.inr (Or.inr (Or.inr (Or.inr (Or.inr (Or.inr (Or.inr ?_))))))
              rw [hTe]
              exact List.isEmpty_iff.mp hemp
            · rw [if_neg hemp]
              unfold buildSegmentUrls
              rw [show (recordGet (parseAttributes g) "media").getD "" = mv from by
                rw [hmv]
                rfl]
              by_cases hinc : includesStr mv "$Number$" = true
              · rw [if_pos hinc]
                apply iff_of_false (by simp)
                simp only [hg, hInit, hiv, hMedia, hmv, hTok, hinc, htl, hTe]
                push_neg
                refine ⟨by simp, by simp, by simp [hivne], by simp, by simp [hmvne],
                  by simp, by simp, ?_⟩
                intro hc
                rw [hc] at hemp
                exact hemp rfl
              · rw [if_neg hinc]
                apply iff_of_true rfl
                refine Or.inr (Or.inr (Or.inr (Or.inr (Or.inr (Or.inl ?_)))))
                rw [hTok]
                simpa using hinc

end SpotDl

namespace SpotDl

def mpd6 : String :=
  "<SegmentTemplate initialization=\"\" media=\"s$Number$\"><SegmentTimeline><S d=\"1\"/></SegmentTimeline></SegmentTemplate>"

set_option maxRecDepth 40000 in
/-- C6 counterexample: a manifest with `initialization=""` (present but
empty).  Every condition of the claim as stated is false — the template
tag matches, both attributes are present, media contains the token, the
timeline matches and has a surviving entry — yet the parse returns
`none`. -/
theorem c6_null_conditions_counterexample :
    parseMpdSegmentUrls mpd6 = none
    ∧ templateGroup mpd6.data ≠ none
    ∧ mpdInitAttr mpd6 = some ""
    ∧ mpdMediaAttr mpd6 = some "s$Number$"
    ∧ mpdMediaHasToken mpd6 = true
    ∧ timelineGroup mpd6.data ≠ none
    ∧ mpdTimelineEntries mpd6 ≠ [] :=
  ⟨by decide, by decide, by decide, by decide, by decide, by decide, by decide⟩

/-- C5 amended: for every input string `decodeManifest` is total (never
throws) and returns `Mpd` with exactly the base64-decoded bytes when the
decoded, trimmed text starts with "<"; otherwise `Url` carrying the
member `urls?.[0]` of the parsed JSON when that member exists and is
truthy; otherwise `none` — including on JSON parse failure, an empty
`urls` array, and (the amendment) a falsy first element such as the empty
string. -/
theorem c5_decode_classification (s : String) :
    decodeManifest s =
      (if startsWithLt (manifestDecodedText s) then some (.mpd (base64Decode s))
       else
         match manifestUrl0 s with
         | some v => if jsTruthy v then some (.url v) else none
         | none => none) := by
  unfold decodeManifest manifestUrl0 manifestJson manifestDecodedText
  by_cases hs : startsWithLt (jsTrim (utf8DecodeStr (base64Decode s))) = true
  · rw [if_pos hs, if_pos hs]
  · rw [if_neg hs, if_neg hs]
    cases hj : jsonParse (jsTrim (utf8DecodeStr (base64Decode s))) with
    | none => rfl
    | some payload =>
      dsimp only [Option.bind]
      cases urlsFirst payload with
      | none => rfl
      | some v => rfl

set_option maxRecDepth 40000 in
/-- C5 examples: the spec's three decode cases computed concretely: an
MPD payload, a url payload, and an empty urls array. -/
theorem c5_decode_examples :
    decodeManifest "PE1QRD4=" = some (.mpd [60, 77, 80, 68, 62])
    ∧ decodeManifest "eyJ1cmxzIjpbImh0dHBzOi8vZXhhbXBsZS50ZXN0L2EuZmxhYyJdfQ=="
        = some (.url (.str "https://example.test/a.flac"))
    ∧ decodeManifest "eyJ1cmxzIjpbXX0=" = none :=
  ⟨rfl, rfl, rfl⟩

def s5 : String := "eyJ1cmxzIjpbIiJdfQ=="

set_option maxRecDepth 40000 in
/-- C5 counterexample: for the base64 of a JSON object whose urls array
has the empty string as its first element, the claim says `Url ""` is
returned (the array has a first element and the text does not start with
"<"), but the code's falsiness test returns `none`. -/
theorem c5_decode_counterexample :
    (decodeManifest s5).isNone = true
    ∧ (manifestUrl0 s5).isSome = true
    ∧ startsWithLt (manifestDecodedText s5) = false
    ∧ manifestUrl0 s5 = some (.str "") :=
  ⟨by decide, by decide, by decide, rfl⟩

end SpotDl
